import Mathlib

/-!
Verification of the patient-to-clinician assignment engine of
`src/services/api.ts` (the "Intelligent Assignment Engine").

The TypeScript source is embedded shallowly:

* `Doctor` and `Visit` carry exactly the fields of the source records that
  the engine reads or writes (timestamps, transcripts and summaries are
  never consulted by the assignment logic and are omitted).
* JavaScript numbers holding caseloads are embedded as `Int`; the derived
  quantities `avgLoad` and the cost terms, which JavaScript computes with
  division, are embedded as exact rationals `ℚ`.
* `String.toLowerCase()`-based comparison is embedded as `specEq`, ASCII
  case folding (the specialty strings of the program are ASCII).
* The mutating API functions `finalizeTriage` and `submitDiagnosis` become
  state-passing step functions on `ClinicState`; the in-place mutation of
  the found object becomes an id-keyed functional update, which coincides
  with the source behaviour when ids are distinct.
* The batch rebalancer belongs to a backend that is documented in the
  repository but whose code is not under `src/`; it is modelled from the
  spec near the end of the definitions, see `rebalance`.
-/

structure Doctor where
  id : String
  name : String
  specialty : String
  currentLoad : Int
  status : String
deriving DecidableEq

structure Visit where
  id : Int
  status : String
  priority : String
  ai_assigned_specialty : Option String
  assigned_doctor_id : Option String
deriving DecidableEq

structure ClinicState where
  doctors : List Doctor
  visits : List Visit
deriving DecidableEq

/-- `MISMATCH_PENALTY` of src/services/api.ts line 50. -/
def MISMATCH_PENALTY : ℚ := 10000

/-- `LOAD_PENALTY_WEIGHT` of src/services/api.ts line 51. -/
def LOAD_PENALTY_WEIGHT : ℚ := 300

/-- `AVG_SERVICE_TIME` of src/services/api.ts line 52. -/
def AVG_SERVICE_TIME : ℚ := 900

/-- ASCII lower-casing of one code point, as `toLowerCase` acts on ASCII. -/
def lowerChar (n : Nat) : Nat := if 65 ≤ n ∧ n ≤ 90 then n + 32 else n

/-- The case-folded key of a string. -/
def lowerKey (s : String) : List Nat := s.data.map (fun c => lowerChar c.toNat)

/-- `a.toLowerCase() === b.toLowerCase()` for ASCII strings. -/
def specEq (a b : String) : Bool := lowerKey a == lowerKey b

/-- `doctors.filter(d => d.status === 'active')`, line 62. -/
def activeDoctors (ds : List Doctor) : List Doctor :=
  ds.filter (fun d => d.status == "active")

/-- `activeDoctors.reduce((acc, d) => acc + d.currentLoad, 0) / activeDoctors.length`,
lines 67 and 85. -/
def avgLoad (ds : List Doctor) : ℚ :=
  (ds.map (fun d => (d.currentLoad : ℚ))).sum / (ds.length : ℚ)

/-- Lines 91-92: `isMatch ? 0 : MISMATCH_PENALTY`. -/
def mismatchCost (target : String) (doc : Doctor) : ℚ :=
  if specEq doc.specialty target then 0 else MISMATCH_PENALTY

/-- Line 95: `doc.currentLoad * AVG_SERVICE_TIME`. -/
def estimatedWait (doc : Doctor) : ℚ := (doc.currentLoad : ℚ) * AVG_SERVICE_TIME

/-- Line 98: `Math.max(0, doc.currentLoad - avgLoad) * LOAD_PENALTY_WEIGHT`. -/
def loadPenalty (avg : ℚ) (doc : Doctor) : ℚ :=
  max 0 ((doc.currentLoad : ℚ) - avg) * LOAD_PENALTY_WEIGHT

/-- Line 100: `mismatchCost + estimatedWait + loadPenalty`. -/
def totalCost (target : String) (avg : ℚ) (doc : Doctor) : ℚ :=
  mismatchCost target doc + estimatedWait doc + loadPenalty avg doc

/-- One iteration of the minimum-cost loop of lines 89-106: the running
best is replaced exactly when the new cost is strictly smaller (`minCost`
starts at `Infinity`, so the first candidate always replaces `null`). -/
def pickMin (cost : Doctor → ℚ) (acc : Option (Doctor × ℚ)) (doc : Doctor) :
    Option (Doctor × ℚ) :=
  match acc with
  | none => some (doc, cost doc)
  | some (b, cb) => if cost doc < cb then some (doc, cost doc) else some (b, cb)

/-- One iteration of the emergency specialty-match loop of lines 72-79. -/
def pickMatch (target : String) (acc : Option Doctor) (doc : Doctor) : Option Doctor :=
  if specEq doc.specialty target then
    match acc with
    | none => some doc
    | some b => if doc.currentLoad < b.currentLoad then some doc else some b
  else acc

/-- `candidates.sort((a, b) => a.currentLoad - b.currentLoad)`, line 81. -/
def sortByLoad (ds : List Doctor) : List Doctor :=
  ds.mergeSort (fun a b => decide (a.currentLoad ≤ b.currentLoad))

/-- `activeDoctors.filter(d => d.currentLoad <= avgLoad)`, line 68. -/
def lessBusy (active : List Doctor) : List Doctor :=
  active.filter (fun d => decide ((d.currentLoad : ℚ) ≤ avgLoad active))

/-- `lessBusy.length > 0 ? lessBusy : activeDoctors`, line 69. -/
def emergencyCandidates (active : List Doctor) : List Doctor :=
  if (lessBusy active).isEmpty then active else lessBusy active

/-- `findBestDoctor` of src/services/api.ts lines 61-108 (the source's
local variables `activeDoctors` and `candidates` are inlined). -/
def findBestDoctor (doctors : List Doctor) (targetSpecialty priority : String) :
    Option Doctor :=
  if (activeDoctors doctors).isEmpty then none
  else if priority == "Emergency" then
    match (emergencyCandidates (activeDoctors doctors)).foldl
        (pickMatch targetSpecialty) none with
    | some bestMatch => some bestMatch
    | none => (sortByLoad (emergencyCandidates (activeDoctors doctors))).head?
  else
    match (activeDoctors doctors).foldl
        (pickMin (totalCost targetSpecialty (avgLoad (activeDoctors doctors)))) none with
    | some best => some best.1
    | none => (activeDoctors doctors).head?

/-- `assignedDoctor.currentLoad++` of line 226, keyed by id. -/
def incrementLoad (ds : List Doctor) (did : String) : List Doctor :=
  ds.map (fun d => if d.id == did then { d with currentLoad := d.currentLoad + 1 } else d)

/-- `doctor.currentLoad = Math.max(0, doctor.currentLoad - 1)` of line 297,
keyed by id. -/
def decrementLoad (ds : List Doctor) (did : String) : List Doctor :=
  ds.map (fun d => if d.id == did then { d with currentLoad := max 0 (d.currentLoad - 1) } else d)

/-- The current load of the doctor with the given id (0 when absent). -/
def loadOf (ds : List Doctor) (did : String) : Int :=
  ((ds.find? (fun d => d.id == did)).map Doctor.currentLoad).getD 0

/-- The state change of `beginVisit` (lines 169-189): a fresh visit enters
in status `triage`, unassigned. -/
def beginVisitStep (s : ClinicState) (vid : Int) : ClinicState :=
  { s with visits := s.visits ++
      [{ id := vid, status := "triage", priority := "Normal",
         ai_assigned_specialty := none, assigned_doctor_id := none }] }

/-- The visit mutation of `finalizeTriage` lines 215-220 and 227: status
`waiting`, triaged priority and routed specialty recorded, and the chosen
doctor attached. -/
def triageUpdateAssigned (sp pr did : String) (v : Visit) : Visit :=
  { v with
    status := "waiting"
    priority := pr
    ai_assigned_specialty := some sp
    assigned_doctor_id := some did }

/-- The visit mutation of `finalizeTriage` lines 215-220 when no doctor is
available: the assignment field is left untouched. -/
def triageUpdateUnassigned (sp pr : String) (v : Visit) : Visit :=
  { v with
    status := "waiting"
    priority := pr
    ai_assigned_specialty := some sp }

/-- The state change of `finalizeTriage` (lines 191-237): the visit moves
to `waiting` and records the routed specialty; when `findBestDoctor`
returns a doctor, that doctor's load is incremented and the visit points
at it, otherwise the visit is left unassigned. -/
def finalizeTriageStep (s : ClinicState) (vid : Int) (sp pr : String) : ClinicState :=
  if (s.visits.find? (fun v => v.id == vid)).isSome then
    match findBestDoctor s.doctors sp pr with
    | some d =>
      { doctors := incrementLoad s.doctors d.id,
        visits := s.visits.map (fun v =>
          if v.id == vid then triageUpdateAssigned sp pr d.id v else v) }
    | none =>
      { s with visits := s.visits.map (fun v =>
          if v.id == vid then triageUpdateUnassigned sp pr v else v) }
  else s

/-- The state change of `submitDiagnosis` (lines 279-302): the visit moves
to `seen`; when it has an assigned doctor that doctor's load is
decremented, floored at 0. -/
def seenUpdate (v : Visit) : Visit := { v with status := "seen" }

/-- Lines 294-299: the decrement applies only when the visit has an
assigned doctor. -/
def completedDoctors (ds : List Doctor) (assigned : Option String) : List Doctor :=
  match assigned with
  | some did => decrementLoad ds did
  | none => ds

def submitDiagnosisStep (s : ClinicState) (vid : Int) : ClinicState :=
  match s.visits.find? (fun v => v.id == vid) with
  | none => s
  | some v =>
    { doctors := completedDoctors s.doctors v.assigned_doctor_id,
      visits := s.visits.map (fun w => if w.id == vid then seenUpdate w else w) }

/-- The engine events the load-conservation claims quantify over. -/
inductive Event where
  | checkIn (vid : Int)
  | assign (vid : Int) (sp pr : String)
  | complete (vid : Int)
deriving DecidableEq

def step (s : ClinicState) : Event → ClinicState
  | .checkIn vid => beginVisitStep s vid
  | .assign vid sp pr => finalizeTriageStep s vid sp pr
  | .complete vid => submitDiagnosisStep s vid

def run (s : ClinicState) (es : List Event) : ClinicState := es.foldl step s

/-- An event is well formed when it follows the visit lifecycle of the
program: check-in uses a fresh visit id, triage finalization targets a
visit still in triage and unassigned, diagnosis submission targets a visit
not yet seen. -/
def wfEvent (s : ClinicState) : Event → Bool
  | .checkIn vid => s.visits.all (fun v => v.id != vid)
  | .assign vid _ _ => s.visits.any
      (fun v => v.id == vid && v.status == "triage" && v.assigned_doctor_id == none)
  | .complete vid => s.visits.any (fun v => v.id == vid && v.status != "seen")

def wfEvents (s : ClinicState) : List Event → Bool
  | [] => true
  | e :: es => wfEvent s e && wfEvents (step s e) es

/-- A visit currently assigned to the given doctor and not yet completed. -/
def isOpenAssignedTo (did : String) (v : Visit) : Bool :=
  v.assigned_doctor_id == some did && v.status != "seen"

def openAssignedTo (vs : List Visit) (did : String) : Nat :=
  vs.countP (isOpenAssignedTo did)

/-- A visit with an assigned doctor that is not yet completed. -/
def isOpenAssigned (v : Visit) : Bool :=
  v.assigned_doctor_id.isSome && v.status != "seen"

def openAssignedCount (vs : List Visit) : Nat := vs.countP isOpenAssigned

def totalLoad (ds : List Doctor) : Int := (ds.map Doctor.currentLoad).sum

/-- Ids are unique and every assigned doctor id exists in the roster. -/
def idsOK (s : ClinicState) : Prop :=
  (s.doctors.map Doctor.id).Nodup ∧ (s.visits.map Visit.id).Nodup ∧
  ∀ v ∈ s.visits, ∀ did, v.assigned_doctor_id = some did → did ∈ s.doctors.map Doctor.id

/-- Every doctor's ledger load equals its count of open assigned visits. -/
def ledgerInv (s : ClinicState) : Prop :=
  ∀ d ∈ s.doctors, d.currentLoad = (openAssignedTo s.visits d.id : Int)

def EngineInv (s : ClinicState) : Prop := idsOK s ∧ ledgerInv s

/-- The sum of all loads equals the number of open assigned visits. -/
def conservation (s : ClinicState) : Prop :=
  totalLoad s.doctors = (openAssignedCount s.visits : Int)

/-- What one event does to the ledger: a successful assignment increments
the chosen doctor's load by exactly one, a completion of an assigned visit
decrements its doctor's load by exactly one, and no other load moves. -/
def stepDelta (s : ClinicState) : Event → Prop
  | .checkIn vid => (step s (.checkIn vid)).doctors = s.doctors
  | .assign vid sp pr =>
    match findBestDoctor s.doctors sp pr with
    | some d =>
      loadOf (step s (.assign vid sp pr)).doctors d.id = loadOf s.doctors d.id + 1 ∧
      ∀ did, did ≠ d.id →
        loadOf (step s (.assign vid sp pr)).doctors did = loadOf s.doctors did
    | none => (step s (.assign vid sp pr)).doctors = s.doctors
  | .complete vid =>
    match (s.visits.find? (fun v => v.id == vid)).bind Visit.assigned_doctor_id with
    | some did =>
      loadOf (step s (.complete vid)).doctors did = loadOf s.doctors did - 1 ∧
      ∀ did2, did2 ≠ did →
        loadOf (step s (.complete vid)).doctors did2 = loadOf s.doctors did2
    | none => (step s (.complete vid)).doctors = s.doctors

/-- The roster literal of src/services/api.ts lines 112-119. -/
def initialDoctors : List Doctor :=
  [⟨"d_1", "Dr. A. House", "Internal Medicine", 0, "active"⟩,
   ⟨"d_2", "Dr. M. Grey", "General Surgery", 0, "active"⟩,
   ⟨"d_3", "Dr. S. Strange", "Neurology", 0, "active"⟩,
   ⟨"d_4", "Dr. J. Dorian", "Internal Medicine", 0, "active"⟩,
   ⟨"d_5", "Dr. D. Shepherd", "Neurosurgery", 0, "break"⟩,
   ⟨"d_6", "Dr. L. Cuddy", "Endocrinology", 0, "active"⟩]

/-- Modelled from the spec: the snapshot of §4.4, "all Waiting
(non-emergency) visits". The repository documents its batch rebalancer as
part of a Python backend whose code is not under src/. -/
def waitingVisits (vs : List Visit) : List Visit :=
  vs.filter (fun v => v.status == "waiting" && v.priority != "Emergency")

/-- Modelled from the spec: §4.4 clinician "slots" — each active clinician
exposes up to `cap` parallel slots in the cost matrix. -/
def clinicianSlots (active : List Doctor) (cap : Nat) : List Doctor :=
  active.flatMap (fun d => List.replicate cap d)

/-- All ways to hand the head slot list to a first visit: each slot paired
with the remaining slots. -/
def picks : List Doctor → List (Doctor × List Doctor)
  | [] => []
  | s :: rest => (s, rest) :: (picks rest).map (fun p => (p.1, s :: p.2))

/-- Modelled from the spec: the feasible assignment sets of §4.4 — every
way to give each waiting visit its own clinician slot. Empty exactly when
no feasible matching exists. -/
def allMatchings : List Visit → List Doctor → List (List (Visit × Doctor))
  | [], _ => [[]]
  | v :: vs, slots =>
    (picks slots).flatMap (fun p => (allMatchings vs p.2).map (fun m => (v, p.1) :: m))

/-- Modelled from the spec: one cost-matrix entry, "using the Cost Model". -/
def visitCost (avg : ℚ) (p : Visit × Doctor) : ℚ :=
  totalCost (p.1.ai_assigned_specialty.getD "") avg p.2

/-- Modelled from the spec: the total summed cost of an assignment set. -/
def matchingCost (avg : ℚ) (m : List (Visit × Doctor)) : ℚ :=
  (m.map (visitCost avg)).sum

/-- Exact minimisation over the explicit list of feasible matchings. -/
def argminMatching (avg : ℚ) : List (List (Visit × Doctor)) → Option (List (Visit × Doctor))
  | [] => none
  | m :: ms =>
    some (ms.foldl (fun best m2 =>
      if matchingCost avg m2 < matchingCost avg best then m2 else best) m)

/-- Modelled from the spec: applying one diff of §4.4 — a visit whose
optimal clinician is unchanged is left untouched; otherwise the old
clinician's load is decremented, the new one's incremented, and the visit
repointed. -/
def applyDiff (s : ClinicState) (p : Visit × Doctor) : ClinicState :=
  if p.1.assigned_doctor_id == some p.2.id then s
  else
    { doctors := incrementLoad
        (match p.1.assigned_doctor_id with
         | some old => decrementLoad s.doctors old
         | none => s.doctors) p.2.id,
      visits := s.visits.map (fun v => if v.id == p.1.id then
        { v with assigned_doctor_id := some p.2.id } else v) }

inductive RebalanceResult where
  | infeasibleBatch (state : ClinicState)
  | rebalanced (assignments : List (Visit × Doctor)) (state : ClinicState)
deriving DecidableEq

/-- Modelled from the spec: the Batch Rebalancer of §4.4. It snapshots the
waiting non-emergency visits and the active clinicians, solves for a
minimum-total-cost matching by exact minimisation, and applies only the
diffs; when no feasible matching exists it yields `InfeasibleBatch` and
the state is left exactly as it was. -/
def rebalance (s : ClinicState) (cap : Nat) : RebalanceResult :=
  match argminMatching (avgLoad (activeDoctors s.doctors))
      (allMatchings (waitingVisits s.visits)
        (clinicianSlots (activeDoctors s.doctors) cap)) with
  | none => .infeasibleBatch s
  | some m => .rebalanced m (m.foldl applyDiff s)

/-! ## Basic facts about the greedy selection loops -/

theorem mem_activeDoctors {d : Doctor} {ds : List Doctor} :
    d ∈ activeDoctors ds ↔ d ∈ ds ∧ d.status = "active" := by
  simp [activeDoctors, List.mem_filter]

theorem activeDoctors_sub {ds : List Doctor} : activeDoctors ds ⊆ ds := by
  intro d hd
  exact (mem_activeDoctors.1 hd).1

theorem lessBusy_sub {l : List Doctor} : lessBusy l ⊆ l := by
  intro d hd
  exact List.mem_of_mem_filter hd

theorem emergencyCandidates_sub {l : List Doctor} : emergencyCandidates l ⊆ l := by
  unfold emergencyCandidates
  split
  · exact fun d hd => hd
  · exact lessBusy_sub

theorem emergencyCandidates_ne_nil {l : List Doctor} (h : l ≠ []) :
    emergencyCandidates l ≠ [] := by
  unfold emergencyCandidates
  split
  · exact h
  · rename_i hsplit
    intro hc
    rw [hc] at hsplit
    simp at hsplit

theorem sortByLoad_head (l : List Doctor) (hne : l ≠ []) :
    ∃ d, (sortByLoad l).head? = some d ∧ d ∈ l ∧
      ∀ x ∈ l, d.currentLoad ≤ x.currentLoad := by
  have hperm : (sortByLoad l).Perm l := List.mergeSort_perm l _
  have hsne : sortByLoad l ≠ [] := by
    intro hnil
    rw [hnil] at hperm
    exact hne (List.Perm.eq_nil hperm.symm)
  have hsorted : List.Pairwise
      (fun a b : Doctor => (decide (a.currentLoad ≤ b.currentLoad)) = true)
      (sortByLoad l) := by
    apply List.sorted_mergeSort
    · intro a b c hab hbc
      simp only [decide_eq_true_iff] at *
      exact le_trans hab hbc
    · intro a b
      simp only [Bool.or_eq_true, decide_eq_true_iff]
      exact Int.le_total _ _
  obtain ⟨d, tl, hcons⟩ := List.exists_cons_of_ne_nil hsne
  refine ⟨d, ?_, ?_, ?_⟩
  · rw [hcons]; rfl
  · exact hperm.mem_iff.1 (by rw [hcons]; exact List.mem_cons_self d tl)
  · intro x hx
    have hxs : x ∈ sortByLoad l := hperm.mem_iff.2 hx
    rw [hcons] at hxs hsorted
    rcases List.mem_cons.1 hxs with hxd | hxtl
    · rw [hxd]
    · have := (List.pairwise_cons.1 hsorted).1 x hxtl
      simpa using this

theorem foldl_pickMin_spec (cost : Doctor → ℚ) (l : List Doctor) (hne : l ≠ []) :
    ∃ d pre post, l.foldl (pickMin cost) none = some (d, cost d) ∧
      l = pre ++ d :: post ∧
      (∀ x ∈ pre, cost d < cost x) ∧
      (∀ x ∈ l, cost d ≤ cost x) := by
  induction l using List.reverseRecOn with
  | nil => exact absurd rfl hne
  | append_singleton l x ih =>
    rcases eq_or_ne l [] with hl | hl
    · subst hl
      refine ⟨x, [], [], ?_, rfl, ?_, ?_⟩
      · simp [pickMin]
      · intro y hy; simp at hy
      · intro y hy
        simp at hy
        rw [hy]
    · obtain ⟨d, pre, post, hfold, hdecomp, hpre, hall⟩ := ih hl
      rw [List.foldl_append, hfold]
      by_cases hlt : cost x < cost d
      · refine ⟨x, l, [], ?_, by simp, ?_, ?_⟩
        · simp [pickMin, hlt]
        · intro y hy
          exact lt_of_lt_of_le hlt (hall y hy)
        · intro y hy
          rcases List.mem_append.1 hy with hy | hy
          · exact le_trans (le_of_lt hlt) (hall y hy)
          · simp at hy; rw [hy]
      · refine ⟨d, pre, post ++ [x], ?_, ?_, hpre, ?_⟩
        · simp [pickMin, hlt]
        · rw [hdecomp]; simp
        · intro y hy
          rcases List.mem_append.1 hy with hy | hy
          · exact hall y hy
          · simp at hy
            rw [hy]
            exact le_of_not_gt hlt

theorem pickMatch_none_step (target : String) (x : Doctor) :
    pickMatch target none x = if specEq x.specialty target then some x else none := by
  unfold pickMatch
  split <;> rfl

theorem pickMatch_some_step (target : String) (b x : Doctor) :
    pickMatch target (some b) x =
      if specEq x.specialty target then
        (if x.currentLoad < b.currentLoad then some x else some b)
      else some b := by
  unfold pickMatch
  split <;> rfl

theorem foldl_pickMatch_none (target : String) (l : List Doctor) :
    l.foldl (pickMatch target) none = none ↔
      ∀ x ∈ l, specEq x.specialty target = false := by
  induction l using List.reverseRecOn with
  | nil => simp
  | append_singleton l x ih =>
    rw [List.foldl_append]
    simp only [List.foldl_cons, List.foldl_nil]
    constructor
    · intro h
      rcases hacc : l.foldl (pickMatch target) none with _ | b
      · rw [hacc, pickMatch_none_step] at h
        intro y hy
        rcases List.mem_append.1 hy with hy | hy
        · exact (ih.1 hacc) y hy
        · simp at hy
          subst hy
          by_contra hmatch
          rw [Bool.not_eq_false] at hmatch
          rw [hmatch] at h
          simp at h
      · rw [hacc, pickMatch_some_step] at h
        split at h
        · split at h <;> simp at h
        · simp at h
    · intro h
      have hl : l.foldl (pickMatch target) none = none :=
        ih.2 (fun y hy => h y (List.mem_append.2 (Or.inl hy)))
      rw [hl, pickMatch_none_step]
      have hx : specEq x.specialty target = false := h x (by simp)
      simp [hx]

theorem foldl_pickMatch_some (target : String) (l : List Doctor) (d : Doctor)
    (h : l.foldl (pickMatch target) none = some d) :
    d ∈ l ∧ specEq d.specialty target = true ∧
      ∀ x ∈ l, specEq x.specialty target = true → d.currentLoad ≤ x.currentLoad := by
  induction l using List.reverseRecOn generalizing d with
  | nil => simp [List.foldl_nil] at h
  | append_singleton l x ih =>
    rw [List.foldl_append] at h
    simp only [List.foldl_cons, List.foldl_nil] at h
    rcases hacc : l.foldl (pickMatch target) none with _ | b
    · rw [hacc, pickMatch_none_step] at h
      split at h
      · rename_i hmatch
        rw [Option.some_inj] at h
        subst h
        refine ⟨by simp, hmatch, ?_⟩
        intro y hy hym
        rcases List.mem_append.1 hy with hy | hy
        · exact absurd hym (by simp [(foldl_pickMatch_none target l).1 hacc y hy])
        · simp at hy; rw [hy]
      · simp at h
    · rw [hacc, pickMatch_some_step] at h
      obtain ⟨hbmem, hbmatch, hbmin⟩ := ih b hacc
      split at h
      · split at h
        · rename_i hmatch hlt
          rw [Option.some_inj] at h
          subst h
          refine ⟨by simp, hmatch, ?_⟩
          intro y hy hym
          rcases List.mem_append.1 hy with hy | hy
          · exact le_trans (le_of_lt hlt) (hbmin y hy hym)
          · simp at hy; rw [hy]
        · rename_i hmatch hlt
          rw [Option.some_inj] at h
          subst h
          refine ⟨List.mem_append.2 (Or.inl hbmem), hbmatch, ?_⟩
          intro y hy hym
          rcases List.mem_append.1 hy with hy | hy
          · exact hbmin y hy hym
          · simp at hy
            rw [hy]
            exact le_of_not_gt hlt
      · rename_i hmatch
        rw [Option.some_inj] at h
        subst h
        refine ⟨List.mem_append.2 (Or.inl hbmem), hbmatch, ?_⟩
        intro y hy hym
        rcases List.mem_append.1 hy with hy | hy
        · exact hbmin y hy hym
        · simp at hy
          subst hy
          exact absurd hym (by simp [hmatch])

/-! ## Structure of `findBestDoctor` -/

theorem findBestDoctor_none_iff {ds : List Doctor} {t p : String} :
    findBestDoctor ds t p = none ↔ activeDoctors ds = [] := by
  unfold findBestDoctor
  by_cases hemp : (activeDoctors ds).isEmpty
  · simp [hemp, List.isEmpty_iff.1 hemp]
  · rw [if_neg hemp]
    have hne : activeDoctors ds ≠ [] := by
      intro hnil; rw [hnil] at hemp; simp at hemp
    by_cases hp : (p == "Emergency") = true
    · rw [if_pos hp]
      rcases hm : (emergencyCandidates (activeDoctors ds)).foldl (pickMatch t) none with _ | b
      · obtain ⟨d0, hd0, _, _⟩ := sortByLoad_head _ (emergencyCandidates_ne_nil hne)
        simp [hd0, hne]
      · simp [hne]
    · rw [if_neg hp]
      rcases hm : (activeDoctors ds).foldl
          (pickMin (totalCost t (avgLoad (activeDoctors ds)))) none with _ | b
      · obtain ⟨d0, pre, post, hfold, _, _, _⟩ := foldl_pickMin_spec _ _ hne
        rw [hfold] at hm
        cases hm
      · simp [hne]

theorem findBestDoctor_mem_active {ds : List Doctor} {t p : String} {d : Doctor}
    (h : findBestDoctor ds t p = some d) : d ∈ activeDoctors ds := by
  unfold findBestDoctor at h
  by_cases hemp : (activeDoctors ds).isEmpty
  · rw [if_pos hemp] at h; cases h
  · rw [if_neg hemp] at h
    have hne : activeDoctors ds ≠ [] := by
      intro hnil; rw [hnil] at hemp; simp at hemp
    by_cases hp : (p == "Emergency") = true
    · rw [if_pos hp] at h
      rcases hm : (emergencyCandidates (activeDoctors ds)).foldl (pickMatch t) none with _ | b
      · rw [hm] at h
        obtain ⟨d0, hd0, hd0mem, _⟩ := sortByLoad_head _ (emergencyCandidates_ne_nil hne)
        simp only [hd0, Option.some_inj] at h
        subst h
        exact emergencyCandidates_sub hd0mem
      · rw [hm] at h
        simp only [Option.some_inj] at h
        subst h
        exact emergencyCandidates_sub (foldl_pickMatch_some t _ _ hm).1
    · rw [if_neg hp] at h
      rcases hm : (activeDoctors ds).foldl
          (pickMin (totalCost t (avgLoad (activeDoctors ds)))) none with _ | b
      · obtain ⟨d0, pre, post, hfold, _, _, _⟩ := foldl_pickMin_spec _ _ hne
        rw [hfold] at hm
        cases hm
      · rw [hm] at h
        simp only [Option.some_inj] at h
        obtain ⟨d0, pre, post, hfold, hdecomp, _, _⟩ := foldl_pickMin_spec _ _ hne
        rw [hfold] at hm
        cases hm
        subst h
        rw [hdecomp]
        exact List.mem_append.2 (Or.inr (List.mem_cons_self _ _))

theorem findBestDoctor_standard {ds : List Doctor} {t p : String}
    (hp : p ≠ "Emergency") (hne : activeDoctors ds ≠ []) :
    ∃ d pre post, findBestDoctor ds t p = some d ∧
      activeDoctors ds = pre ++ d :: post ∧
      (∀ x ∈ pre,
        totalCost t (avgLoad (activeDoctors ds)) d < totalCost t (avgLoad (activeDoctors ds)) x) ∧
      (∀ x ∈ activeDoctors ds,
        totalCost t (avgLoad (activeDoctors ds)) d ≤ totalCost t (avgLoad (activeDoctors ds)) x) := by
  obtain ⟨d, pre, post, hfold, hdecomp, hpre, hall⟩ :=
    foldl_pickMin_spec (totalCost t (avgLoad (activeDoctors ds))) _ hne
  refine ⟨d, pre, post, ?_, hdecomp, hpre, hall⟩
  unfold findBestDoctor
  rw [if_neg (by simpa using hne), if_neg (by simpa using hp), hfold]

theorem findBestDoctor_emergency {ds : List Doctor} {t : String}
    (hne : activeDoctors ds ≠ []) :
    ∃ d, findBestDoctor ds t "Emergency" = some d ∧
      d ∈ emergencyCandidates (activeDoctors ds) ∧
      ((∃ c ∈ emergencyCandidates (activeDoctors ds), specEq c.specialty t = true) →
        specEq d.specialty t = true ∧
        ∀ c ∈ emergencyCandidates (activeDoctors ds),
          specEq c.specialty t = true → d.currentLoad ≤ c.currentLoad) ∧
      ((∀ c ∈ emergencyCandidates (activeDoctors ds), specEq c.specialty t = false) →
        ∀ c ∈ emergencyCandidates (activeDoctors ds), d.currentLoad ≤ c.currentLoad) := by
  have hcne := emergencyCandidates_ne_nil hne
  have hfb : findBestDoctor ds t "Emergency" =
      match (emergencyCandidates (activeDoctors ds)).foldl (pickMatch t) none with
      | some bestMatch => some bestMatch
      | none => (sortByLoad (emergencyCandidates (activeDoctors ds))).head? := by
    unfold findBestDoctor
    rw [if_neg (by simpa using hne), if_pos (by simp)]
  rcases hm : (emergencyCandidates (activeDoctors ds)).foldl (pickMatch t) none with _ | b
  · obtain ⟨d0, hd0, hd0mem, hd0min⟩ := sortByLoad_head _ hcne
    refine ⟨d0, ?_, hd0mem, ?_, ?_⟩
    · rw [hfb, hm, hd0]
    · intro ⟨c, hc, hcm⟩
      exact absurd hcm (by simp [(foldl_pickMatch_none t _).1 hm c hc])
    · intro _
      exact hd0min
  · obtain ⟨hbmem, hbmatch, hbmin⟩ := foldl_pickMatch_some t _ _ hm
    refine ⟨b, ?_, hbmem, ?_, ?_⟩
    · rw [hfb, hm]
    · intro _
      exact ⟨hbmatch, hbmin⟩
    · intro hnone
      exact absurd hbmatch (by simp [hnone b hbmem])

/-! ## The minimum load is at or below the average load -/

theorem mul_length_le_sumLoads (l : List Doctor) (m : ℚ)
    (h : ∀ x ∈ l, m ≤ (x.currentLoad : ℚ)) :
    m * (l.length : ℚ) ≤ (l.map (fun d => (d.currentLoad : ℚ))).sum := by
  induction l with
  | nil => simp
  | cons d l ih =>
    simp only [List.map_cons, List.sum_cons, List.length_cons]
    have h1 : m ≤ (d.currentLoad : ℚ) := h d (by simp)
    have h2 := ih (fun x hx => h x (by simp [hx]))
    push_cast
    have hexp : m * ((l.length : ℚ) + 1) = m * (l.length : ℚ) + m := by ring
    rw [hexp]
    linarith

theorem exists_le_avgLoad (l : List Doctor) (hne : l ≠ []) :
    ∃ d ∈ l, (d.currentLoad : ℚ) ≤ avgLoad l := by
  obtain ⟨d, _, hdmem, hdmin⟩ := sortByLoad_head l hne
  refine ⟨d, hdmem, ?_⟩
  unfold avgLoad
  rw [le_div_iff₀]
  · exact mul_length_le_sumLoads l _ (fun x hx => by exact_mod_cast hdmin x hx)
  · have : 0 < l.length := List.length_pos.2 hne
    exact_mod_cast this

theorem lessBusy_ne_nil {l : List Doctor} (hne : l ≠ []) : lessBusy l ≠ [] := by
  obtain ⟨d, hdmem, hdle⟩ := exists_le_avgLoad l hne
  intro hnil
  have hd : d ∈ lessBusy l := by
    unfold lessBusy
    rw [List.mem_filter]
    exact ⟨hdmem, by simpa using hdle⟩
  rw [hnil] at hd
  cases hd

theorem emergencyCandidates_eq_lessBusy {l : List Doctor} (hne : l ≠ []) :
    emergencyCandidates l = lessBusy l := by
  unfold emergencyCandidates
  rw [if_neg]
  intro hemp
  exact lessBusy_ne_nil hne (List.isEmpty_iff.1 hemp)

/-! ## Claim theorems: the greedy assigner and the emergency fast-path -/

/-- C1: the single-patient assigner either chooses a clinician that is in
the roster with status active, or chooses nobody exactly when the active
set is empty; and when nobody is chosen, `finalizeTriage` leaves every
clinician load and every visit's assigned clinician untouched, so the
visit stays unassigned. -/
theorem C1_chosen_active_or_none (ds : List Doctor) (t p : String)
    (s : ClinicState) (vid : Int) :
    (match findBestDoctor ds t p with
     | some d => d ∈ ds ∧ d.status = "active"
     | none => activeDoctors ds = []) ∧
    (match findBestDoctor s.doctors t p with
     | some _ => True
     | none =>
       (finalizeTriageStep s vid t p).doctors = s.doctors ∧
       (finalizeTriageStep s vid t p).visits.map Visit.assigned_doctor_id =
         s.visits.map Visit.assigned_doctor_id) := by
  constructor
  · rcases hfb : findBestDoctor ds t p with _ | d
    · exact findBestDoctor_none_iff.1 hfb
    · exact mem_activeDoctors.1 (findBestDoctor_mem_active hfb)
  · rcases hfb : findBestDoctor s.doctors t p with _ | d
    · unfold finalizeTriageStep
      rw [hfb]
      by_cases hfind : (s.visits.find? (fun v => v.id == vid)).isSome
      · rw [if_pos hfind]
        refine ⟨rfl, ?_⟩
        simp only [List.map_map]
        apply List.map_congr_left
        intro v _
        by_cases hv : (v.id == vid) = true <;>
          simp [hv, Function.comp, triageUpdateUnassigned]
      · rw [if_neg hfind]
        exact ⟨rfl, rfl⟩
    · trivial

/-- C3: for an Emergency visit with at least one active clinician, the
chosen clinician is drawn from the candidate set (active clinicians at or
below the average active load, or all active clinicians if that subset is
empty); a lowest-load case-insensitive exact specialty match is preferred,
and when no match exists among the candidates the least-loaded candidate
is chosen regardless of specialty. -/
theorem C3_emergency_selection (ds : List Doctor) (t : String)
    (h : activeDoctors ds ≠ []) :
    ∃ d, findBestDoctor ds t "Emergency" = some d ∧
      d ∈ emergencyCandidates (activeDoctors ds) ∧
      ((∃ c ∈ emergencyCandidates (activeDoctors ds), specEq c.specialty t = true) →
        specEq d.specialty t = true ∧
        ∀ c ∈ emergencyCandidates (activeDoctors ds),
          specEq c.specialty t = true → d.currentLoad ≤ c.currentLoad) ∧
      ((∀ c ∈ emergencyCandidates (activeDoctors ds), specEq c.specialty t = false) →
        ∀ c ∈ emergencyCandidates (activeDoctors ds), d.currentLoad ≤ c.currentLoad) :=
  findBestDoctor_emergency h

/-- Witness for C3: the Neurology emergency of the source roster. -/
theorem C3_emergency_selection_witness :
    ∃ d, findBestDoctor initialDoctors "Neurology" "Emergency" = some d ∧
      d ∈ emergencyCandidates (activeDoctors initialDoctors) ∧
      ((∃ c ∈ emergencyCandidates (activeDoctors initialDoctors),
          specEq c.specialty "Neurology" = true) →
        specEq d.specialty "Neurology" = true ∧
        ∀ c ∈ emergencyCandidates (activeDoctors initialDoctors),
          specEq c.specialty "Neurology" = true → d.currentLoad ≤ c.currentLoad) ∧
      ((∀ c ∈ emergencyCandidates (activeDoctors initialDoctors),
          specEq c.specialty "Neurology" = false) →
        ∀ c ∈ emergencyCandidates (activeDoctors initialDoctors),
          d.currentLoad ≤ c.currentLoad) :=
  C3_emergency_selection initialDoctors "Neurology" (by decide)

/-- C10: with at least one active clinician the at-or-below-average-load
subset is never empty (a minimum-load clinician is at or below the
average), so the emergency path's fallback to all active clinicians is
never taken: the candidate set is always exactly `lessBusy`. -/
theorem C10_fallback_never_taken (ds : List Doctor)
    (h : activeDoctors ds ≠ []) :
    lessBusy (activeDoctors ds) ≠ [] ∧
    emergencyCandidates (activeDoctors ds) = lessBusy (activeDoctors ds) :=
  ⟨lessBusy_ne_nil h, emergencyCandidates_eq_lessBusy h⟩

/-- Witness for C10 on the source roster. -/
theorem C10_fallback_never_taken_witness :
    lessBusy (activeDoctors initialDoctors) ≠ [] ∧
    emergencyCandidates (activeDoctors initialDoctors) =
      lessBusy (activeDoctors initialDoctors) :=
  C10_fallback_never_taken initialDoctors (by decide)

/-! ## Claim theorems: the cost model and the standard greedy path -/

/-- C7 counterexample: with two active clinicians of identical specialty
and load, the engine picks the one listed first (`d_2`) even though the
other has the strictly lower clinician id (`d_1`), while both have the
same minimum total cost. This refutes the claim that ties break by lowest
clinician id. -/
theorem C7_counterexample :
    findBestDoctor
      [⟨"d_2", "Dr. B", "Cardiology", 0, "active"⟩,
       ⟨"d_1", "Dr. A", "Cardiology", 0, "active"⟩] "Cardiology" "Normal" =
      some ⟨"d_2", "Dr. B", "Cardiology", 0, "active"⟩ ∧
    ("d_1" : String).data < ("d_2" : String).data ∧
    totalCost "Cardiology"
        (avgLoad (activeDoctors
          [⟨"d_2", "Dr. B", "Cardiology", 0, "active"⟩,
           ⟨"d_1", "Dr. A", "Cardiology", 0, "active"⟩]))
        ⟨"d_1", "Dr. A", "Cardiology", 0, "active"⟩ =
      totalCost "Cardiology"
        (avgLoad (activeDoctors
          [⟨"d_2", "Dr. B", "Cardiology", 0, "active"⟩,
           ⟨"d_1", "Dr. A", "Cardiology", 0, "active"⟩]))
        ⟨"d_2", "Dr. B", "Cardiology", 0, "active"⟩ := by
  refine ⟨?_, by decide, rfl⟩
  obtain ⟨d, pre, post, hfb, hdecomp, hpre, _⟩ :=
    @findBestDoctor_standard
      [⟨"d_2", "Dr. B", "Cardiology", 0, "active"⟩,
       ⟨"d_1", "Dr. A", "Cardiology", 0, "active"⟩]
      "Cardiology" "Normal" (by decide) (by decide)
  have hact : activeDoctors
      [⟨"d_2", "Dr. B", "Cardiology", 0, "active"⟩,
       ⟨"d_1", "Dr. A", "Cardiology", 0, "active"⟩] =
      [⟨"d_2", "Dr. B", "Cardiology", 0, "active"⟩,
       ⟨"d_1", "Dr. A", "Cardiology", 0, "active"⟩] := by decide
  rw [hact] at hdecomp
  rcases pre with _ | ⟨x, pre2⟩
  · rw [List.nil_append] at hdecomp
    injection hdecomp with h1 h2
    rw [hfb, ← h1]
  · rcases pre2 with _ | ⟨y, pre3⟩
    · exfalso
      rw [List.cons_append, List.nil_append] at hdecomp
      injection hdecomp with h1 h2
      injection h2 with h3 h4
      have hlt := hpre x (by simp)
      rw [← h1, ← h3] at hlt
      exact lt_irrefl _ hlt
    · exfalso
      have hlen := congrArg List.length hdecomp
      simp [List.length_append] at hlen

/-- C7 amended: in the non-emergency greedy assignment the chosen
clinician has minimum total cost among active clinicians, and when two or
more achieve that minimum the tie breaks by earliest position in the
clinician list (insertion order), not by lowest clinician id: the chosen
clinician is the first minimiser, every clinician listed before it costing
strictly more. The selection is still deterministic. -/
theorem C7_amended_first_minimum (ds : List Doctor) (t p : String)
    (hp : p ≠ "Emergency") (hne : activeDoctors ds ≠ []) :
    ∃ d pre post, findBestDoctor ds t p = some d ∧
      activeDoctors ds = pre ++ d :: post ∧
      (∀ x ∈ pre,
        totalCost t (avgLoad (activeDoctors ds)) d <
          totalCost t (avgLoad (activeDoctors ds)) x) ∧
      (∀ x ∈ activeDoctors ds,
        totalCost t (avgLoad (activeDoctors ds)) d ≤
          totalCost t (avgLoad (activeDoctors ds)) x) :=
  findBestDoctor_standard hp hne

/-- Witness for the amended C7 on the source roster. -/
theorem C7_amended_first_minimum_witness :
    ∃ d pre post, findBestDoctor initialDoctors "Cardiology" "Normal" = some d ∧
      activeDoctors initialDoctors = pre ++ d :: post ∧
      (∀ x ∈ pre,
        totalCost "Cardiology" (avgLoad (activeDoctors initialDoctors)) d <
          totalCost "Cardiology" (avgLoad (activeDoctors initialDoctors)) x) ∧
      (∀ x ∈ activeDoctors initialDoctors,
        totalCost "Cardiology" (avgLoad (activeDoctors initialDoctors)) d ≤
          totalCost "Cardiology" (avgLoad (activeDoctors initialDoctors)) x) :=
  C7_amended_first_minimum initialDoctors "Cardiology" "Normal" (by decide) (by decide)

/-- C2 counterexample: the engine's assignment result carries no cost
breakdown at all — two candidate pairs whose mismatch costs (and hence
totals) differ by the full penalty produce bit-identical assignment
results, so no shift penalty, and indeed no cost term whatever, is
reported. This refutes the claim that the result reports all four cost
terms plus the total. -/
theorem C2_counterexample :
    findBestDoctor [⟨"d_1", "Dr. A", "Neurology", 0, "active"⟩] "Neurology" "Normal" =
      findBestDoctor [⟨"d_1", "Dr. A", "Neurology", 0, "active"⟩] "Cardiology" "Normal" ∧
    totalCost "Neurology"
        (avgLoad (activeDoctors [⟨"d_1", "Dr. A", "Neurology", 0, "active"⟩]))
        ⟨"d_1", "Dr. A", "Neurology", 0, "active"⟩ = 0 ∧
    totalCost "Cardiology"
        (avgLoad (activeDoctors [⟨"d_1", "Dr. A", "Neurology", 0, "active"⟩]))
        ⟨"d_1", "Dr. A", "Neurology", 0, "active"⟩ = 10000 := by
  have hact : activeDoctors [⟨"d_1", "Dr. A", "Neurology", 0, "active"⟩] =
      [⟨"d_1", "Dr. A", "Neurology", 0, "active"⟩] := by decide
  have havg : avgLoad (activeDoctors [⟨"d_1", "Dr. A", "Neurology", 0, "active"⟩]) = 0 := by
    rw [hact]
    unfold avgLoad
    norm_num
  have hm1 : specEq "Neurology" "Neurology" = true := by decide
  have hm2 : specEq "Neurology" "Cardiology" = false := by decide
  refine ⟨by decide, ?_, ?_⟩
  · rw [havg]
    unfold totalCost mismatchCost estimatedWait loadPenalty AVG_SERVICE_TIME LOAD_PENALTY_WEIGHT
    rw [hm1]
    norm_num
  · rw [havg]
    unfold totalCost mismatchCost estimatedWait loadPenalty
    unfold MISMATCH_PENALTY AVG_SERVICE_TIME LOAD_PENALTY_WEIGHT
    rw [hm2]
    norm_num

/-- C2 amended: for every non-emergency candidate pair the engine's cost
is the three-term sum `mismatch_cost + estimated_wait + load_penalty` — no
shift penalty exists — and the chosen clinician minimises that three-term
cost over the active clinicians; the result is only the chosen clinician,
with no cost breakdown attached. -/
theorem C2_amended_three_terms (ds : List Doctor) (t p : String)
    (hp : p ≠ "Emergency") (hne : activeDoctors ds ≠ []) :
    (∀ (c : Doctor) (avg : ℚ), totalCost t avg c =
      (if specEq c.specialty t then 0 else 10000) +
        (c.currentLoad : ℚ) * 900 + max 0 ((c.currentLoad : ℚ) - avg) * 300) ∧
    ∃ d, findBestDoctor ds t p = some d ∧
      ∀ c ∈ activeDoctors ds,
        totalCost t (avgLoad (activeDoctors ds)) d ≤
          totalCost t (avgLoad (activeDoctors ds)) c := by
  constructor
  · intro c avg
    unfold totalCost mismatchCost estimatedWait loadPenalty
    unfold MISMATCH_PENALTY AVG_SERVICE_TIME LOAD_PENALTY_WEIGHT
    ring
  · obtain ⟨d, pre, post, hfb, _, _, hall⟩ := findBestDoctor_standard hp hne
    exact ⟨d, hfb, hall⟩

/-- Witness for the amended C2 on the source roster. -/
theorem C2_amended_three_terms_witness :
    (∀ (c : Doctor) (avg : ℚ), totalCost "Endocrinology" avg c =
      (if specEq c.specialty "Endocrinology" then 0 else 10000) +
        (c.currentLoad : ℚ) * 900 + max 0 ((c.currentLoad : ℚ) - avg) * 300) ∧
    ∃ d, findBestDoctor initialDoctors "Endocrinology" "Priority" = some d ∧
      ∀ c ∈ activeDoctors initialDoctors,
        totalCost "Endocrinology" (avgLoad (activeDoctors initialDoctors)) d ≤
          totalCost "Endocrinology" (avgLoad (activeDoctors initialDoctors)) c :=
  C2_amended_three_terms initialDoctors "Endocrinology" "Priority" (by decide) (by decide)

/-- C6 counterexample: with the required specialty missing (the empty
string), a clinician whose own specialty is `Neurology` gets the full
mismatch penalty of 10000, not a mismatch cost of 0; the engine still
proceeds and assigns. This refutes the claim that an empty requirement
matches any specialty with `mismatch_cost` 0. -/
theorem C6_counterexample :
    mismatchCost "" ⟨"d_3", "Dr. S. Strange", "Neurology", 0, "active"⟩ =
      MISMATCH_PENALTY ∧
    MISMATCH_PENALTY ≠ 0 ∧
    findBestDoctor [⟨"d_3", "Dr. S. Strange", "Neurology", 0, "active"⟩] "" "Normal" =
      some ⟨"d_3", "Dr. S. Strange", "Neurology", 0, "active"⟩ := by
  refine ⟨?_, by decide, by decide⟩
  have h : specEq "Neurology" "" = false := by decide
  simp [mismatchCost, h]

/-- C6 amended: an empty required specialty matches only a clinician whose
own specialty also case-folds to the empty string; every clinician with a
nonempty specialty receives the full (uniform) mismatch penalty. The
engine does not fail: with a nonempty active set a clinician is still
chosen. -/
theorem C6_empty_requirement (ds : List Doctor) (p : String)
    (hne : activeDoctors ds ≠ []) :
    (∀ d : Doctor, lowerKey d.specialty ≠ [] →
      mismatchCost "" d = MISMATCH_PENALTY) ∧
    ∃ d, findBestDoctor ds "" p = some d ∧ d ∈ activeDoctors ds := by
  constructor
  · intro d hd
    unfold mismatchCost
    rw [if_neg]
    intro hmatch
    rw [specEq] at hmatch
    have : lowerKey d.specialty = lowerKey "" := by
      exact eq_of_beq hmatch
    rw [this] at hd
    exact hd rfl
  · rcases hfb : findBestDoctor ds "" p with _ | d
    · exact absurd (findBestDoctor_none_iff.1 hfb) hne
    · exact ⟨d, rfl, findBestDoctor_mem_active hfb⟩

/-- Witness for the amended C6 on the source roster. -/
theorem C6_empty_requirement_witness :
    (∀ d : Doctor, lowerKey d.specialty ≠ [] →
      mismatchCost "" d = MISMATCH_PENALTY) ∧
    ∃ d, findBestDoctor initialDoctors "" "Normal" = some d ∧
      d ∈ activeDoctors initialDoctors :=
  C6_empty_requirement initialDoctors "Normal" (by decide)

/-- C8: within one load snapshot (one fixed average), a higher current
load strictly increases the `estimated_wait` term, and an
otherwise-identical clinician (same specialty) with strictly higher load
never has a lower total cost. -/
theorem C8_load_monotonicity (t : String) (avg : ℚ) (d1 d2 : Doctor)
    (hload : d1.currentLoad < d2.currentLoad)
    (hspec : d1.specialty = d2.specialty) :
    estimatedWait d1 < estimatedWait d2 ∧
    totalCost t avg d1 ≤ totalCost t avg d2 := by
  have hq : (d1.currentLoad : ℚ) < (d2.currentLoad : ℚ) := by exact_mod_cast hload
  have hwait : estimatedWait d1 < estimatedWait d2 := by
    unfold estimatedWait AVG_SERVICE_TIME
    have h900 : (0 : ℚ) < 900 := by norm_num
    exact mul_lt_mul_of_pos_right hq h900
  refine ⟨hwait, ?_⟩
  unfold totalCost
  have hmc : mismatchCost t d1 = mismatchCost t d2 := by
    unfold mismatchCost
    rw [hspec]
  have hlp : loadPenalty avg d1 ≤ loadPenalty avg d2 := by
    unfold loadPenalty LOAD_PENALTY_WEIGHT
    have hsub : (d1.currentLoad : ℚ) - avg ≤ (d2.currentLoad : ℚ) - avg := by linarith
    have hmax : max 0 ((d1.currentLoad : ℚ) - avg) ≤ max 0 ((d2.currentLoad : ℚ) - avg) :=
      max_le_max le_rfl hsub
    have h300 : (0 : ℚ) ≤ 300 := by norm_num
    exact mul_le_mul_of_nonneg_right hmax h300
  linarith [hwait, hlp, le_of_eq hmc]

/-- Witness for C8: two Cardiology clinicians, loads 0 and 3, average 0. -/
theorem C8_load_monotonicity_witness :
    estimatedWait ⟨"d_1", "Dr. A", "Cardiology", 0, "active"⟩ <
      estimatedWait ⟨"d_2", "Dr. B", "Cardiology", 3, "active"⟩ ∧
    totalCost "Cardiology" 0 ⟨"d_1", "Dr. A", "Cardiology", 0, "active"⟩ ≤
      totalCost "Cardiology" 0 ⟨"d_2", "Dr. B", "Cardiology", 3, "active"⟩ :=
  C8_load_monotonicity "Cardiology" 0
    ⟨"d_1", "Dr. A", "Cardiology", 0, "active"⟩
    ⟨"d_2", "Dr. B", "Cardiology", 3, "active"⟩ (by decide) rfl

/-! ## Non-negativity of the ledger -/

theorem incrementLoad_nonneg {ds : List Doctor} {did : String}
    (h : ∀ d ∈ ds, 0 ≤ d.currentLoad) :
    ∀ d ∈ incrementLoad ds did, 0 ≤ d.currentLoad := by
  intro d hd
  obtain ⟨d0, hd0, rfl⟩ := List.mem_map.1 hd
  have h0 := h d0 hd0
  by_cases hid : (d0.id == did) = true
  · simp only [hid, if_true]
    omega
  · simp only [hid, if_false]
    exact h0

theorem decrementLoad_nonneg {ds : List Doctor} {did : String} :
    ∀ d ∈ decrementLoad ds did, 0 ≤ d.currentLoad ∨ d ∈ ds := by
  intro d hd
  obtain ⟨d0, hd0, rfl⟩ := List.mem_map.1 hd
  by_cases hid : (d0.id == did) = true
  · simp only [hid, if_true]
    left
    exact le_max_left 0 _
  · simp only [hid, if_false]
    right
    exact hd0

theorem step_loads_nonneg (s : ClinicState) (e : Event)
    (h : ∀ d ∈ s.doctors, 0 ≤ d.currentLoad) :
    ∀ d ∈ (step s e).doctors, 0 ≤ d.currentLoad := by
  cases e with
  | checkIn vid => exact h
  | assign vid sp pr =>
    show ∀ d ∈ (finalizeTriageStep s vid sp pr).doctors, 0 ≤ d.currentLoad
    unfold finalizeTriageStep
    split
    · rcases hfb : findBestDoctor s.doctors sp pr with _ | d0
      · exact h
      · exact incrementLoad_nonneg h
    · exact h
  | complete vid =>
    show ∀ d ∈ (submitDiagnosisStep s vid).doctors, 0 ≤ d.currentLoad
    unfold submitDiagnosisStep
    split
    · exact h
    · rename_i v hfind
      rcases hdid : v.assigned_doctor_id with _ | did
      · exact h
      · intro d hd
        rcases decrementLoad_nonneg d hd with h1 | h1
        · exact h1
        · exact h d h1

/-- C9: the completion-time decrement floors loads at 0, so after any
sequence of engine events starting from a state with non-negative loads,
every clinician's caseload is still a non-negative integer. -/
theorem C9_loads_nonneg (s : ClinicState) (es : List Event)
    (h : ∀ d ∈ s.doctors, 0 ≤ d.currentLoad) :
    ∀ d ∈ (run s es).doctors, 0 ≤ d.currentLoad := by
  induction es generalizing s with
  | nil => exact h
  | cons e es ih => exact ih (step s e) (step_loads_nonneg s e h)

/-- Witness for C9: a doctor at load 0 stays at load 0 through two
completions of its assigned visit (the floor prevents -1 and -2). -/
theorem C9_loads_nonneg_witness :
    (0 : Int) ≤ (Doctor.mk "d_1" "Dr. A" "Cardiology" 0 "active").currentLoad :=
  C9_loads_nonneg
    ⟨[⟨"d_1", "Dr. A", "Cardiology", 0, "active"⟩],
     [⟨1, "waiting", "Normal", none, some "d_1"⟩]⟩
    [Event.complete 1, Event.complete 1] (by decide)
    ⟨"d_1", "Dr. A", "Cardiology", 0, "active"⟩ (by decide)

/-! ## Counting infrastructure for load conservation -/

theorem sum_map_add_nat {α : Type} (l : List α) (f g : α → ℕ) :
    (l.map (fun a => f a + g a)).sum = (l.map f).sum + (l.map g).sum := by
  induction l with
  | nil => simp
  | cons a l ih =>
    simp only [List.map_cons, List.sum_cons, ih]
    omega

theorem sum_indicator_unique (ds : List Doctor) (did : String)
    (hnd : (ds.map Doctor.id).Nodup) (hmem : did ∈ ds.map Doctor.id) :
    (ds.map (fun d => if d.id = did then 1 else 0)).sum = 1 := by
  induction ds with
  | nil => cases hmem
  | cons d ds ih =>
    rw [List.map_cons] at hnd hmem
    rw [List.nodup_cons] at hnd
    rw [List.map_cons, List.sum_cons]
    by_cases hd : d.id = did
    · rw [if_pos hd]
      have hzero : (ds.map (fun x => if x.id = did then 1 else 0)).sum = 0 := by
        apply List.sum_eq_zero
        intro y hy
        obtain ⟨x, hx, rfl⟩ := List.mem_map.1 hy
        rw [if_neg]
        intro hxid
        exact hnd.1 (hd ▸ hxid ▸ List.mem_map_of_mem Doctor.id hx)
      rw [hzero]
    · rw [if_neg hd]
      rcases List.mem_cons.1 hmem with h0 | h0
      · exact absurd h0.symm hd
      · rw [ih hnd.2 h0]

theorem sum_indicator_open (ds : List Doctor) (v : Visit)
    (hnd : (ds.map Doctor.id).Nodup)
    (hcov : ∀ did, v.assigned_doctor_id = some did → did ∈ ds.map Doctor.id) :
    (ds.map (fun d => if isOpenAssignedTo d.id v = true then 1 else 0)).sum =
      (if isOpenAssigned v = true then 1 else 0) := by
  rcases hdid : v.assigned_doctor_id with _ | did
  · have hz : ∀ d : Doctor, (if isOpenAssignedTo d.id v = true then 1 else 0) = 0 := by
      intro d
      simp [isOpenAssignedTo, hdid]
    rw [List.map_congr_left (fun d _ => hz d)]
    simp [isOpenAssigned, hdid]
  · by_cases hseen : v.status == "seen"
    · have hz : ∀ d : Doctor, (if isOpenAssignedTo d.id v = true then 1 else 0) = 0 := by
        intro d
        have : v.status = "seen" := beq_iff_eq.1 hseen
        simp [isOpenAssignedTo, this]
      rw [List.map_congr_left (fun d _ => hz d)]
      have : v.status = "seen" := beq_iff_eq.1 hseen
      simp [isOpenAssigned, this]
    · have heq : ∀ d : Doctor, (if isOpenAssignedTo d.id v = true then 1 else 0) =
          (if d.id = did then 1 else 0) := by
        intro d
        have hsts : (v.status != "seen") = true := by
          simp only [bne_iff_ne, ne_eq]
          intro hc
          exact hseen (beq_iff_eq.2 hc)
        by_cases hd : d.id = did
        · rw [if_pos hd]
          rw [if_pos]
          simp [isOpenAssignedTo, hdid, hd, hsts]
        · rw [if_neg hd]
          rw [if_neg]
          simp [isOpenAssignedTo, hdid, hsts]
          intro hc
          exact hd hc.symm
      rw [List.map_congr_left (fun d _ => heq d)]
      rw [sum_indicator_unique ds did hnd (hcov did hdid)]
      have : isOpenAssigned v = true := by
        simp only [isOpenAssigned, hdid, Option.isSome_some, Bool.true_and, bne_iff_ne, ne_eq]
        intro hc
        exact hseen (beq_iff_eq.2 hc)
      rw [if_pos this]

theorem sum_openAssignedTo (ds : List Doctor) (vs : List Visit)
    (hnd : (ds.map Doctor.id).Nodup)
    (hcov : ∀ v ∈ vs, ∀ did, v.assigned_doctor_id = some did → did ∈ ds.map Doctor.id) :
    (ds.map (fun d => openAssignedTo vs d.id)).sum = openAssignedCount vs := by
  induction vs with
  | nil => simp [openAssignedTo, openAssignedCount]
  | cons v vs ih =>
    have hstep : ∀ d : Doctor, openAssignedTo (v :: vs) d.id =
        openAssignedTo vs d.id + (if isOpenAssignedTo d.id v = true then 1 else 0) := by
      intro d
      unfold openAssignedTo
      rw [List.countP_cons]
    rw [List.map_congr_left (fun d _ => hstep d), sum_map_add_nat,
      ih (fun w hw => hcov w (List.mem_cons_of_mem v hw)),
      sum_indicator_open ds v hnd (hcov v (List.mem_cons_self v vs))]
    unfold openAssignedCount
    rw [List.countP_cons]

theorem sum_map_intCast (l : List Doctor) (f : Doctor → ℕ) :
    (l.map (fun d => ((f d : ℕ) : ℤ))).sum = (((l.map f).sum : ℕ) : ℤ) := by
  induction l with
  | nil => simp
  | cons d l ih => simp [ih]

theorem find_id_unique {vs : List Visit} (hnd : (vs.map Visit.id).Nodup)
    {v w : Visit} (hv : v ∈ vs) (hw : w ∈ vs) (hid : v.id = w.id) : v = w :=
  List.inj_on_of_nodup_map hnd hv hw hid

theorem countP_map_idupdate (vs : List Visit) (vid : Int) (f : Visit → Visit)
    (p : Visit → Bool) (hnd : (vs.map Visit.id).Nodup)
    (v0 : Visit) (hmem : v0 ∈ vs) (hid : v0.id = vid) :
    (vs.map (fun v => if v.id == vid then f v else v)).countP p +
      (if p v0 = true then 1 else 0) =
    vs.countP p + (if p (f v0) = true then 1 else 0) := by
  induction vs with
  | nil => cases hmem
  | cons w vs ih =>
    rw [List.map_cons] at hnd
    rw [List.nodup_cons] at hnd
    rw [List.map_cons, List.countP_cons, List.countP_cons]
    rcases List.mem_cons.1 hmem with h0 | h0
    · subst h0
      rw [if_pos (beq_iff_eq.2 hid)]
      have hrest : vs.map (fun v => if v.id == vid then f v else v) = vs := by
        have : ∀ v ∈ vs, (if v.id == vid then f v else v) = v := by
          intro v hv
          rw [if_neg]
          intro hc
          have hvid : v.id = vid := beq_iff_eq.1 hc
          exact hnd.1 (hid ▸ hvid ▸ List.mem_map_of_mem Visit.id hv)
        rw [List.map_congr_left this]
        simp
      rw [hrest]
      by_cases h1 : p v0 = true <;> by_cases h2 : p (f v0) = true <;>
        simp [h1, h2]
    · have hwid : (w.id == vid) = false := by
        rw [beq_eq_false_iff_ne]
        intro hc
        exact hnd.1 (hc ▸ hid ▸ List.mem_map_of_mem Visit.id h0)
      rw [hwid]
      simp only [Bool.false_eq_true, if_false]
      have := ih hnd.2 h0
      omega

theorem find_mapUpdate_self (ds : List Doctor) (did : String) (u : Doctor → Doctor)
    (hu : ∀ d, (u d).id = d.id) :
    (ds.map (fun d => if d.id == did then u d else d)).find? (fun d => d.id == did) =
      (ds.find? (fun d => d.id == did)).map u := by
  induction ds with
  | nil => rfl
  | cons d ds ih =>
    by_cases hd : (d.id == did) = true
    · have hud : ((u d).id == did) = true := by rw [hu]; exact hd
      simp only [List.map_cons, hd, if_true, List.find?_cons, hud, Option.map_some]
      rfl
    · have hdf : (d.id == did) = false := by simpa using hd
      simp only [List.map_cons, List.find?_cons, hdf, Bool.false_eq_true, if_false]
      exact ih

theorem find_mapUpdate_other (ds : List Doctor) (did did2 : String)
    (u : Doctor → Doctor) (hu : ∀ d, (u d).id = d.id) (hne : did2 ≠ did) :
    (ds.map (fun d => if d.id == did then u d else d)).find? (fun d => d.id == did2) =
      ds.find? (fun d => d.id == did2) := by
  induction ds with
  | nil => rfl
  | cons d ds ih =>
    by_cases hd : (d.id == did) = true
    · have hd2 : (d.id == did2) = false := by
        rw [beq_eq_false_iff_ne]
        intro hc
        exact hne (hc ▸ beq_iff_eq.1 hd)
      have hud2 : ((u d).id == did2) = false := by rw [hu]; exact hd2
      simp only [List.map_cons, hd, if_true, List.find?_cons, hud2, hd2]
      exact ih
    · have hdf : (d.id == did) = false := by simpa using hd
      simp only [List.map_cons, List.find?_cons, hdf, Bool.false_eq_true, if_false]
      by_cases hd2 : (d.id == did2) = true
      · simp only [hd2]
      · have hd2f : (d.id == did2) = false := by simpa using hd2
        simp only [hd2f]
        exact ih

theorem loadOf_incrementLoad_self {ds : List Doctor} {did : String} {d0 : Doctor}
    (hfind : ds.find? (fun d => d.id == did) = some d0) :
    loadOf (incrementLoad ds did) did = loadOf ds did + 1 := by
  unfold loadOf incrementLoad
  rw [find_mapUpdate_self ds did (fun d => { d with currentLoad := d.currentLoad + 1 }) (fun d => rfl), hfind]
  rfl

theorem loadOf_incrementLoad_other {ds : List Doctor} {did did2 : String}
    (hne : did2 ≠ did) :
    loadOf (incrementLoad ds did) did2 = loadOf ds did2 := by
  unfold loadOf incrementLoad
  rw [find_mapUpdate_other ds did did2 (fun d => { d with currentLoad := d.currentLoad + 1 }) (fun d => rfl) hne]

theorem loadOf_decrementLoad_self {ds : List Doctor} {did : String} {d0 : Doctor}
    (hfind : ds.find? (fun d => d.id == did) = some d0) :
    loadOf (decrementLoad ds did) did = max 0 (loadOf ds did - 1) := by
  unfold loadOf decrementLoad
  rw [find_mapUpdate_self ds did (fun d => { d with currentLoad := max 0 (d.currentLoad - 1) }) (fun d => rfl), hfind]
  rfl

theorem loadOf_decrementLoad_other {ds : List Doctor} {did did2 : String}
    (hne : did2 ≠ did) :
    loadOf (decrementLoad ds did) did2 = loadOf ds did2 := by
  unfold loadOf decrementLoad
  rw [find_mapUpdate_other ds did did2 (fun d => { d with currentLoad := max 0 (d.currentLoad - 1) }) (fun d => rfl) hne]

theorem loadOf_eq_of_mem {ds : List Doctor} (hnd : (ds.map Doctor.id).Nodup)
    {d : Doctor} (hmem : d ∈ ds) : loadOf ds d.id = d.currentLoad := by
  have hsome : (ds.find? (fun x => x.id == d.id)).isSome :=
    List.find?_isSome.2 ⟨d, hmem, beq_iff_eq.2 rfl⟩
  obtain ⟨d1, hd1⟩ := Option.isSome_iff_exists.1 hsome
  have hd1mem := List.mem_of_find?_eq_some hd1
  have hp := List.find?_some hd1
  have hd1id : d1.id = d.id := by simpa using hp
  have hd1eq : d1 = d := List.inj_on_of_nodup_map hnd hd1mem hmem hd1id
  unfold loadOf
  rw [hd1, hd1eq]
  rfl

theorem wfEvent_checkIn_elim {s : ClinicState} {vid : Int}
    (h : wfEvent s (.checkIn vid) = true) : ∀ v ∈ s.visits, v.id ≠ vid := by
  unfold wfEvent at h
  rw [List.all_eq_true] at h
  intro v hv
  have := h v hv
  simpa using this

theorem wfEvent_assign_elim {s : ClinicState} {vid : Int} {sp pr : String}
    (h : wfEvent s (.assign vid sp pr) = true) :
    ∃ v0 ∈ s.visits, v0.id = vid ∧ v0.status = "triage" ∧
      v0.assigned_doctor_id = none := by
  unfold wfEvent at h
  rw [List.any_eq_true] at h
  obtain ⟨v, hv, hp⟩ := h
  simp only [Bool.and_eq_true, beq_iff_eq] at hp
  exact ⟨v, hv, hp.1.1, hp.1.2, hp.2⟩

theorem wfEvent_complete_elim {s : ClinicState} {vid : Int}
    (h : wfEvent s (.complete vid) = true) :
    ∃ v0 ∈ s.visits, v0.id = vid ∧ v0.status ≠ "seen" := by
  unfold wfEvent at h
  rw [List.any_eq_true] at h
  obtain ⟨v, hv, hp⟩ := h
  simp only [Bool.and_eq_true, beq_iff_eq, bne_iff_ne, ne_eq] at hp
  exact ⟨v, hv, hp.1, hp.2⟩

/-! ## Preservation of the ledger invariant -/

theorem engineInv_checkIn {s : ClinicState} {vid : Int}
    (hinv : EngineInv s) (hwf : wfEvent s (.checkIn vid) = true) :
    EngineInv (beginVisitStep s vid) := by
  obtain ⟨⟨hndD, hndV, hcov⟩, hled⟩ := hinv
  have hfresh := wfEvent_checkIn_elim hwf
  refine ⟨⟨hndD, ?_, ?_⟩, ?_⟩
  · show ((s.visits ++
      [({ id := vid, status := "triage", priority := "Normal",
          ai_assigned_specialty := none, assigned_doctor_id := none } : Visit)]).map Visit.id).Nodup
    rw [List.map_append, List.nodup_append]
    refine ⟨hndV, by simp, ?_⟩
    intro x hx hy
    simp only [List.map_cons, List.map_nil, List.mem_singleton] at hy
    obtain ⟨v, hv, rfl⟩ := List.mem_map.1 hx
    exact hfresh v hv hy
  · intro v hv did hdid
    rcases List.mem_append.1 hv with hv2 | hv2
    · exact hcov v hv2 did hdid
    · rw [List.mem_singleton] at hv2
      subst hv2
      cases hdid
  · intro d hd
    show d.currentLoad = (openAssignedTo (s.visits ++
      [({ id := vid, status := "triage", priority := "Normal",
          ai_assigned_specialty := none, assigned_doctor_id := none } : Visit)]) d.id : Int)
    unfold openAssignedTo
    rw [List.countP_append]
    have hz : List.countP (isOpenAssignedTo d.id)
        [({ id := vid, status := "triage", priority := "Normal",
            ai_assigned_specialty := none, assigned_doctor_id := none } : Visit)] = 0 := by
      simp [isOpenAssignedTo]
    rw [hz, Nat.add_zero]
    exact hled d hd


theorem engineInv_assign {s : ClinicState} {vid : Int} {sp pr : String}
    (hinv : EngineInv s) (hwf : wfEvent s (.assign vid sp pr) = true) :
    EngineInv (finalizeTriageStep s vid sp pr) := by
  obtain ⟨⟨hndD, hndV, hcov⟩, hled⟩ := hinv
  obtain ⟨v0, hv0mem, hv0id, hv0st, hv0as⟩ := wfEvent_assign_elim hwf
  have hfindv : (s.visits.find? (fun v => v.id == vid)).isSome :=
    List.find?_isSome.2 ⟨v0, hv0mem, beq_iff_eq.2 hv0id⟩
  unfold finalizeTriageStep
  rw [if_pos hfindv]
  rcases hfb : findBestDoctor s.doctors sp pr with _ | dstar
  · refine ⟨⟨hndD, ?_, ?_⟩, ?_⟩
    · show ((s.visits.map (fun v =>
        if v.id == vid then triageUpdateUnassigned sp pr v else v)).map Visit.id).Nodup
      rw [List.map_map]
      have hc : (Visit.id ∘ fun v =>
          if v.id == vid then triageUpdateUnassigned sp pr v else v) = Visit.id := by
        funext v
        by_cases hv : (v.id == vid) = true <;>
          simp [hv, Function.comp, triageUpdateUnassigned]
      rw [hc]
      exact hndV
    · intro v hv did hdid
      obtain ⟨w, hw, rfl⟩ := List.mem_map.1 hv
      by_cases hwid : (w.id == vid) = true
      · rw [if_pos hwid] at hdid
        exact hcov w hw did hdid
      · rw [if_neg (by simpa using hwid)] at hdid
        exact hcov w hw did hdid
    · intro d hd
      show d.currentLoad = (openAssignedTo (s.visits.map (fun v =>
        if v.id == vid then triageUpdateUnassigned sp pr v else v)) d.id : Int)
      have hcp := countP_map_idupdate s.visits vid (triageUpdateUnassigned sp pr)
        (isOpenAssignedTo d.id) hndV v0 hv0mem hv0id
      have hp0 : isOpenAssignedTo d.id v0 = false := by
        simp [isOpenAssignedTo, hv0as]
      have hpf : isOpenAssignedTo d.id (triageUpdateUnassigned sp pr v0) = false := by
        simp [isOpenAssignedTo, triageUpdateUnassigned, hv0as]
      rw [hp0, hpf] at hcp
      simp only [Bool.false_eq_true, if_false, Nat.add_zero] at hcp
      unfold openAssignedTo
      rw [hcp]
      exact hled d hd
  · have hdmem : dstar ∈ s.doctors := activeDoctors_sub (findBestDoctor_mem_active hfb)
    have hdidmem : dstar.id ∈ s.doctors.map Doctor.id := List.mem_map_of_mem _ hdmem
    have hidsinc : (incrementLoad s.doctors dstar.id).map Doctor.id =
        s.doctors.map Doctor.id := by
      unfold incrementLoad
      rw [List.map_map]
      congr 1
      funext d
      by_cases hc : (d.id == dstar.id) = true <;> simp [hc, Function.comp]
    refine ⟨⟨?_, ?_, ?_⟩, ?_⟩
    · show ((incrementLoad s.doctors dstar.id).map Doctor.id).Nodup
      rw [hidsinc]
      exact hndD
    · show ((s.visits.map (fun v =>
        if v.id == vid then triageUpdateAssigned sp pr dstar.id v else v)).map
          Visit.id).Nodup
      rw [List.map_map]
      have hc : (Visit.id ∘ fun v =>
          if v.id == vid then triageUpdateAssigned sp pr dstar.id v else v) = Visit.id := by
        funext v
        by_cases hv : (v.id == vid) = true <;>
          simp [hv, Function.comp, triageUpdateAssigned]
      rw [hc]
      exact hndV
    · intro v hv did hdid
      show did ∈ (incrementLoad s.doctors dstar.id).map Doctor.id
      rw [hidsinc]
      obtain ⟨w, hw, rfl⟩ := List.mem_map.1 hv
      by_cases hwid : (w.id == vid) = true
      · rw [if_pos hwid] at hdid
        have hdd : dstar.id = did := by
          have h2 : (triageUpdateAssigned sp pr dstar.id w).assigned_doctor_id =
              some dstar.id := rfl
          rw [h2] at hdid
          exact Option.some_inj.1 hdid
        rw [← hdd]
        exact hdidmem
      · rw [if_neg (by simpa using hwid)] at hdid
        exact hcov w hw did hdid
    · intro d hd
      have hd2 : d ∈ incrementLoad s.doctors dstar.id := hd
      unfold incrementLoad at hd2
      obtain ⟨d0, hd0, rfl⟩ := List.mem_map.1 hd2
      have hled0 := hled d0 hd0
      unfold openAssignedTo at hled0
      by_cases hc : (d0.id == dstar.id) = true
      · have hcid : d0.id = dstar.id := beq_iff_eq.1 hc
        rw [if_pos hc]
        have hcp := countP_map_idupdate s.visits vid
          (triageUpdateAssigned sp pr dstar.id)
          (isOpenAssignedTo d0.id) hndV v0 hv0mem hv0id
        have hp0 : isOpenAssignedTo d0.id v0 = false := by
          simp [isOpenAssignedTo, hv0as]
        have hpf : isOpenAssignedTo d0.id (triageUpdateAssigned sp pr dstar.id v0) = true := by
          simp [isOpenAssignedTo, triageUpdateAssigned, hcid]
        rw [hp0, hpf] at hcp
        simp only [Bool.false_eq_true, if_false, Nat.add_zero, if_true] at hcp
        show d0.currentLoad + 1 = (openAssignedTo (s.visits.map (fun v =>
          if v.id == vid then triageUpdateAssigned sp pr dstar.id v else v)) d0.id : Int)
        unfold openAssignedTo
        omega
      · rw [if_neg (by simpa using hc)]
        have hcp := countP_map_idupdate s.visits vid
          (triageUpdateAssigned sp pr dstar.id)
          (isOpenAssignedTo d0.id) hndV v0 hv0mem hv0id
        have hp0 : isOpenAssignedTo d0.id v0 = false := by
          simp [isOpenAssignedTo, hv0as]
        have hpf : isOpenAssignedTo d0.id (triageUpdateAssigned sp pr dstar.id v0) = false := by
          have hne : ¬ dstar.id = d0.id := by
            intro hcc
            exact (by simpa using hc : ¬ d0.id = dstar.id) hcc.symm
          simp [isOpenAssignedTo, triageUpdateAssigned, hne]
        rw [hp0, hpf] at hcp
        simp only [Bool.false_eq_true, if_false, Nat.add_zero] at hcp
        show d0.currentLoad = (openAssignedTo (s.visits.map (fun v =>
          if v.id == vid then triageUpdateAssigned sp pr dstar.id v else v)) d0.id : Int)
        unfold openAssignedTo
        omega

theorem engineInv_complete {s : ClinicState} {vid : Int}
    (hinv : EngineInv s) (hwf : wfEvent s (.complete vid) = true) :
    EngineInv (submitDiagnosisStep s vid) := by
  obtain ⟨⟨hndD, hndV, hcov⟩, hled⟩ := hinv
  obtain ⟨v0, hv0mem, hv0id, hv0st⟩ := wfEvent_complete_elim hwf
  have hfindv : (s.visits.find? (fun v => v.id == vid)).isSome :=
    List.find?_isSome.2 ⟨v0, hv0mem, beq_iff_eq.2 hv0id⟩
  obtain ⟨vF, hvF⟩ := Option.isSome_iff_exists.1 hfindv
  have hvFmem := List.mem_of_find?_eq_some hvF
  have hvFid : vF.id = vid := by simpa using List.find?_some hvF
  have hvF0 : vF = v0 := find_id_unique hndV hvFmem hv0mem (hvFid.trans hv0id.symm)
  subst hvF0
  unfold submitDiagnosisStep
  rw [hvF]
  have hidsm : ∀ vs : List Visit, ((vs.map (fun w =>
      if w.id == vid then seenUpdate w else w)).map Visit.id) = vs.map Visit.id := by
    intro vs
    rw [List.map_map]
    congr 1
    funext w
    by_cases hw : (w.id == vid) = true <;> simp [hw, Function.comp, seenUpdate]
  show EngineInv
    { doctors := completedDoctors s.doctors vF.assigned_doctor_id,
      visits := s.visits.map (fun w => if w.id == vid then seenUpdate w else w) }
  rcases hdid : vF.assigned_doctor_id with _ | did
  · refine ⟨⟨hndD, ?_, ?_⟩, ?_⟩
    · show ((s.visits.map (fun w =>
        if w.id == vid then seenUpdate w else w)).map Visit.id).Nodup
      rw [hidsm]
      exact hndV
    · intro v hv did2 hdid2
      obtain ⟨w, hw, rfl⟩ := List.mem_map.1 hv
      by_cases hwid : (w.id == vid) = true
      · rw [if_pos hwid] at hdid2
        exact hcov w hw did2 hdid2
      · rw [if_neg (by simpa using hwid)] at hdid2
        exact hcov w hw did2 hdid2
    · intro d hd
      show d.currentLoad = (openAssignedTo (s.visits.map (fun w =>
        if w.id == vid then seenUpdate w else w)) d.id : Int)
      have hcp := countP_map_idupdate s.visits vid seenUpdate
        (isOpenAssignedTo d.id) hndV vF hvFmem hvFid
      have hp0 : isOpenAssignedTo d.id vF = false := by
        simp [isOpenAssignedTo, hdid]
      have hpf : isOpenAssignedTo d.id (seenUpdate vF) = false := by
        simp [isOpenAssignedTo, seenUpdate, hdid]
      rw [hp0, hpf] at hcp
      simp only [Bool.false_eq_true, if_false, Nat.add_zero] at hcp
      unfold openAssignedTo
      rw [hcp]
      exact hled d hd
  · have hdidm : did ∈ s.doctors.map Doctor.id := hcov vF hvFmem did hdid
    have hidsdec : (decrementLoad s.doctors did).map Doctor.id =
        s.doctors.map Doctor.id := by
      unfold decrementLoad
      rw [List.map_map]
      congr 1
      funext d
      by_cases hc : (d.id == did) = true <;> simp [hc, Function.comp]
    refine ⟨⟨?_, ?_, ?_⟩, ?_⟩
    · show ((decrementLoad s.doctors did).map Doctor.id).Nodup
      rw [hidsdec]
      exact hndD
    · show ((s.visits.map (fun w =>
        if w.id == vid then seenUpdate w else w)).map Visit.id).Nodup
      rw [hidsm]
      exact hndV
    · intro v hv did2 hdid2
      show did2 ∈ (decrementLoad s.doctors did).map Doctor.id
      rw [hidsdec]
      obtain ⟨w, hw, rfl⟩ := List.mem_map.1 hv
      by_cases hwid : (w.id == vid) = true
      · rw [if_pos hwid] at hdid2
        have : w.assigned_doctor_id = some did2 := hdid2
        exact hcov w hw did2 this
      · rw [if_neg (by simpa using hwid)] at hdid2
        exact hcov w hw did2 hdid2
    · intro d hd
      have hd2 : d ∈ decrementLoad s.doctors did := hd
      unfold decrementLoad at hd2
      obtain ⟨d0, hd0, rfl⟩ := List.mem_map.1 hd2
      have hled0 := hled d0 hd0
      unfold openAssignedTo at hled0
      have hcp := countP_map_idupdate s.visits vid seenUpdate
        (isOpenAssignedTo d0.id) hndV vF hvFmem hvFid
      have hpf : isOpenAssignedTo d0.id (seenUpdate vF) = false := by
        simp [isOpenAssignedTo, seenUpdate]
      by_cases hc : (d0.id == did) = true
      · have hcid : d0.id = did := beq_iff_eq.1 hc
        rw [if_pos hc]
        have hp0 : isOpenAssignedTo d0.id vF = true := by
          simp [isOpenAssignedTo, hdid, hcid, hv0st]
        rw [hp0, hpf] at hcp
        simp only [Bool.false_eq_true, if_false, Nat.add_zero, if_true] at hcp
        show max 0 (d0.currentLoad - 1) = (openAssignedTo (s.visits.map (fun w =>
          if w.id == vid then seenUpdate w else w)) d0.id : Int)
        unfold openAssignedTo
        omega
      · rw [if_neg (by simpa using hc)]
        have hp0 : isOpenAssignedTo d0.id vF = false := by
          have hne : ¬ did = d0.id := by
            intro hcc
            exact (by simpa using hc : ¬ d0.id = did) hcc.symm
          simp [isOpenAssignedTo, hdid, hne]
        rw [hp0, hpf] at hcp
        simp only [Bool.false_eq_true, if_false, Nat.add_zero] at hcp
        show d0.currentLoad = (openAssignedTo (s.visits.map (fun w =>
          if w.id == vid then seenUpdate w else w)) d0.id : Int)
        unfold openAssignedTo
        omega

theorem engineInv_step {s : ClinicState} {e : Event}
    (hinv : EngineInv s) (hwf : wfEvent s e = true) : EngineInv (step s e) := by
  cases e with
  | checkIn vid => exact engineInv_checkIn hinv hwf
  | assign vid sp pr => exact engineInv_assign hinv hwf
  | complete vid => exact engineInv_complete hinv hwf

theorem engineInv_run {s : ClinicState} {es : List Event}
    (hinv : EngineInv s) (hwf : wfEvents s es = true) : EngineInv (run s es) := by
  induction es generalizing s with
  | nil => exact hinv
  | cons e es ih =>
    unfold wfEvents at hwf
    rw [Bool.and_eq_true] at hwf
    exact ih (engineInv_step hinv hwf.1) hwf.2

theorem conservation_of_inv {s : ClinicState} (hinv : EngineInv s) : conservation s := by
  obtain ⟨⟨hndD, hndV, hcov⟩, hled⟩ := hinv
  unfold conservation totalLoad
  have h1 : s.doctors.map Doctor.currentLoad =
      s.doctors.map (fun d => ((openAssignedTo s.visits d.id : ℕ) : ℤ)) :=
    List.map_congr_left (fun d hd => hled d hd)
  rw [h1, sum_map_intCast, sum_openAssignedTo s.doctors s.visits hndD hcov]

theorem stepDelta_of_inv {s : ClinicState} {e : Event}
    (hinv : EngineInv s) (hwf : wfEvent s e = true) : stepDelta s e := by
  obtain ⟨⟨hndD, hndV, hcov⟩, hled⟩ := hinv
  cases e with
  | checkIn vid => rfl
  | assign vid sp pr =>
    obtain ⟨v0, hv0mem, hv0id, _, _⟩ := wfEvent_assign_elim hwf
    have hfind : (s.visits.find? (fun v => v.id == vid)).isSome :=
      List.find?_isSome.2 ⟨v0, hv0mem, beq_iff_eq.2 hv0id⟩
    simp only [stepDelta]
    rcases hfb : findBestDoctor s.doctors sp pr with _ | dstar
    · show (finalizeTriageStep s vid sp pr).doctors = s.doctors
      unfold finalizeTriageStep
      rw [if_pos hfind, hfb]
    · have hmem : dstar ∈ s.doctors := activeDoctors_sub (findBestDoctor_mem_active hfb)
      have hsome : (s.doctors.find? (fun d => d.id == dstar.id)).isSome :=
        List.find?_isSome.2 ⟨dstar, hmem, beq_iff_eq.2 rfl⟩
      obtain ⟨d0, hd0⟩ := Option.isSome_iff_exists.1 hsome
      constructor
      · show loadOf (finalizeTriageStep s vid sp pr).doctors dstar.id =
          loadOf s.doctors dstar.id + 1
        unfold finalizeTriageStep
        rw [if_pos hfind, hfb]
        exact loadOf_incrementLoad_self hd0
      · intro did hne
        show loadOf (finalizeTriageStep s vid sp pr).doctors did = loadOf s.doctors did
        unfold finalizeTriageStep
        rw [if_pos hfind, hfb]
        exact loadOf_incrementLoad_other hne
  | complete vid =>
    obtain ⟨v0, hv0mem, hv0id, hv0st⟩ := wfEvent_complete_elim hwf
    have hfindv : (s.visits.find? (fun v => v.id == vid)).isSome :=
      List.find?_isSome.2 ⟨v0, hv0mem, beq_iff_eq.2 hv0id⟩
    obtain ⟨vF, hvF⟩ := Option.isSome_iff_exists.1 hfindv
    have hvFmem := List.mem_of_find?_eq_some hvF
    have hvFid : vF.id = vid := by simpa using List.find?_some hvF
    have hvF0 : vF = v0 := find_id_unique hndV hvFmem hv0mem (hvFid.trans hv0id.symm)
    subst hvF0
    simp only [stepDelta]
    rw [hvF, Option.some_bind]
    rcases hdid : vF.assigned_doctor_id with _ | did
    · show (submitDiagnosisStep s vid).doctors = s.doctors
      unfold submitDiagnosisStep
      rw [hvF]
      show completedDoctors s.doctors vF.assigned_doctor_id = s.doctors
      rw [hdid]
      rfl
    · have hdidm : did ∈ s.doctors.map Doctor.id := hcov vF hvFmem did hdid
      obtain ⟨dd, hddmem, hddid⟩ := List.mem_map.1 hdidm
      have hsome : (s.doctors.find? (fun d => d.id == did)).isSome :=
        List.find?_isSome.2 ⟨dd, hddmem, beq_iff_eq.2 hddid⟩
      obtain ⟨d0, hd0⟩ := Option.isSome_iff_exists.1 hsome
      have hd0mem := List.mem_of_find?_eq_some hd0
      have hd0id : d0.id = did := by simpa using List.find?_some hd0
      have hL : 1 ≤ loadOf s.doctors did := by
        have hload : loadOf s.doctors did = d0.currentLoad := by
          unfold loadOf
          rw [hd0]
          rfl
        have hled0 := hled d0 hd0mem
        have hpos : 0 < openAssignedTo s.visits did := by
          unfold openAssignedTo
          rw [List.countP_pos_iff]
          refine ⟨vF, hvFmem, ?_⟩
          simp [isOpenAssignedTo, hdid, hv0st]
        rw [hload, hled0, hd0id]
        exact_mod_cast hpos
      constructor
      · show loadOf (submitDiagnosisStep s vid).doctors did = loadOf s.doctors did - 1
        unfold submitDiagnosisStep
        rw [hvF]
        show loadOf (completedDoctors s.doctors vF.assigned_doctor_id) did =
          loadOf s.doctors did - 1
        rw [hdid]
        show loadOf (decrementLoad s.doctors did) did = loadOf s.doctors did - 1
        rw [loadOf_decrementLoad_self hd0]
        omega
      · intro did2 hne
        show loadOf (submitDiagnosisStep s vid).doctors did2 = loadOf s.doctors did2
        unfold submitDiagnosisStep
        rw [hvF]
        show loadOf (completedDoctors s.doctors vF.assigned_doctor_id) did2 =
          loadOf s.doctors did2
        rw [hdid]
        exact loadOf_decrementLoad_other hne

/-- C5: starting from the empty clinic (no visits, all loads zero, distinct
clinician ids), after any well-formed sequence of check-in, assignment and
completion events the sum of all clinicians' loads equals the number of
visits that are assigned and not yet completed; moreover at any reachable
state each further successful assignment increments exactly the chosen
clinician's load by one and each completion of an assigned visit
decrements exactly that clinician's load by one. -/
theorem C5_load_conservation (s0 : ClinicState) (es : List Event)
    (h0v : s0.visits = []) (h0load : ∀ d ∈ s0.doctors, d.currentLoad = 0)
    (h0nd : (s0.doctors.map Doctor.id).Nodup)
    (hwf : wfEvents s0 es = true) :
    conservation (run s0 es) ∧
    ∀ e, wfEvent (run s0 es) e = true → stepDelta (run s0 es) e := by
  have hinv0 : EngineInv s0 := by
    refine ⟨⟨h0nd, ?_, ?_⟩, ?_⟩
    · rw [h0v]
      exact List.nodup_nil
    · intro v hv
      rw [h0v] at hv
      cases hv
    · intro d hd
      rw [h0load d hd]
      unfold openAssignedTo
      rw [h0v]
      rfl
  have hinv := engineInv_run hinv0 hwf
  exact ⟨conservation_of_inv hinv, fun e he => stepDelta_of_inv hinv he⟩

/-- Witness for C5: one doctor, one visit checked in, assigned, then
completed. -/
theorem C5_load_conservation_witness :
    conservation (run ⟨[⟨"d_1", "Dr. A", "Cardiology", 0, "active"⟩], []⟩
      [Event.checkIn 1, Event.assign 1 "Cardiology" "Normal"]) ∧
    stepDelta (run ⟨[⟨"d_1", "Dr. A", "Cardiology", 0, "active"⟩], []⟩
      [Event.checkIn 1, Event.assign 1 "Cardiology" "Normal"]) (Event.complete 1) :=
  ⟨(C5_load_conservation ⟨[⟨"d_1", "Dr. A", "Cardiology", 0, "active"⟩], []⟩
      [Event.checkIn 1, Event.assign 1 "Cardiology" "Normal"]
      rfl (by decide) (by decide) (by decide)).1,
   (C5_load_conservation ⟨[⟨"d_1", "Dr. A", "Cardiology", 0, "active"⟩], []⟩
      [Event.checkIn 1, Event.assign 1 "Cardiology" "Normal"]
      rfl (by decide) (by decide) (by decide)).2
     (Event.complete 1) (by decide)⟩

/-! ## The batch rebalancer (modelled from the spec) is an exact minimiser -/

theorem foldl_minCost_spec (avg : ℚ) (ms : List (List (Visit × Doctor))) :
    ∀ m0, (ms.foldl (fun best m2 =>
        if matchingCost avg m2 < matchingCost avg best then m2 else best) m0) ∈ m0 :: ms ∧
      matchingCost avg (ms.foldl (fun best m2 =>
        if matchingCost avg m2 < matchingCost avg best then m2 else best) m0) ≤
        matchingCost avg m0 ∧
      ∀ m2 ∈ ms, matchingCost avg (ms.foldl (fun best m2 =>
        if matchingCost avg m2 < matchingCost avg best then m2 else best) m0) ≤
        matchingCost avg m2 := by
  induction ms with
  | nil =>
    intro m0
    exact ⟨List.mem_cons_self m0 [], le_refl _, fun m2 hm2 => absurd hm2 (List.not_mem_nil m2)⟩
  | cons m1 ms ih =>
    intro m0
    rw [List.foldl_cons]
    by_cases hlt : matchingCost avg m1 < matchingCost avg m0
    · rw [if_pos hlt]
      obtain ⟨hmem, hle, hall⟩ := ih m1
      refine ⟨?_, ?_, ?_⟩
      · rcases List.mem_cons.1 hmem with h | h
        · rw [h]; exact List.mem_cons_of_mem m0 (List.mem_cons_self m1 ms)
        · exact List.mem_cons_of_mem m0 (List.mem_cons_of_mem m1 h)
      · exact le_trans hle (le_of_lt hlt)
      · intro m2 hm2
        rcases List.mem_cons.1 hm2 with h | h
        · rw [h]; exact hle
        · exact hall m2 h
    · rw [if_neg hlt]
      obtain ⟨hmem, hle, hall⟩ := ih m0
      refine ⟨?_, hle, ?_⟩
      · rcases List.mem_cons.1 hmem with h | h
        · rw [h]; exact List.mem_cons_self m0 _
        · exact List.mem_cons_of_mem m0 (List.mem_cons_of_mem m1 h)
      · intro m2 hm2
        rcases List.mem_cons.1 hm2 with h | h
        · rw [h]
          exact le_trans hle (le_of_not_gt hlt)
        · exact hall m2 h

theorem argminMatching_spec (avg : ℚ) (ms : List (List (Visit × Doctor)))
    (m : List (Visit × Doctor)) (h : argminMatching avg ms = some m) :
    m ∈ ms ∧ ∀ m2 ∈ ms, matchingCost avg m ≤ matchingCost avg m2 := by
  cases ms with
  | nil => cases h
  | cons m0 ms =>
    simp only [argminMatching, Option.some_inj] at h
    obtain ⟨hmem, hle, hall⟩ := foldl_minCost_spec avg ms m0
    rw [h] at hmem hle hall
    refine ⟨?_, ?_⟩
    · rcases List.mem_cons.1 hmem with h2 | h2
      · rw [h2]; exact List.mem_cons_self m0 ms
      · exact List.mem_cons_of_mem m0 h2
    · intro m2 hm2
      rcases List.mem_cons.1 hm2 with h2 | h2
      · rw [h2]; exact hle
      · exact hall m2 h2

theorem allMatchings_fst {vs : List Visit} {slots : List Doctor}
    {m : List (Visit × Doctor)} (h : m ∈ allMatchings vs slots) :
    m.map Prod.fst = vs := by
  induction vs generalizing slots m with
  | nil =>
    simp only [allMatchings, List.mem_singleton] at h
    rw [h]
    rfl
  | cons v vs ih =>
    simp only [allMatchings, List.mem_flatMap, List.mem_map] at h
    obtain ⟨p, hp, m2, hm2, rfl⟩ := h
    simp only [List.map_cons]
    rw [ih hm2]

theorem find_vmapUpdate_other (vs : List Visit) (tid vid : Int)
    (u : Visit → Visit) (hu : ∀ v, (u v).id = v.id) (hne : vid ≠ tid) :
    (vs.map (fun v => if v.id == tid then u v else v)).find? (fun v => v.id == vid) =
      vs.find? (fun v => v.id == vid) := by
  induction vs with
  | nil => rfl
  | cons v vs ih =>
    by_cases hv : (v.id == tid) = true
    · have hv2 : (v.id == vid) = false := by
        rw [beq_eq_false_iff_ne]
        intro hc
        exact hne (hc ▸ beq_iff_eq.1 hv)
      have huv2 : ((u v).id == vid) = false := by rw [hu]; exact hv2
      simp only [List.map_cons, hv, if_true, List.find?_cons, huv2, hv2]
      exact ih
    · have hvf : (v.id == tid) = false := by simpa using hv
      simp only [List.map_cons, List.find?_cons, hvf, Bool.false_eq_true, if_false]
      by_cases hv2 : (v.id == vid) = true
      · simp only [hv2]
      · have hv2f : (v.id == vid) = false := by simpa using hv2
        simp only [hv2f]
        exact ih

theorem foldl_applyDiff_find (m : List (Visit × Doctor)) (s : ClinicState) (vid : Int)
    (h : ∀ q ∈ m, q.1.id = vid → (q.1.assigned_doctor_id == some q.2.id) = true) :
    ((m.foldl applyDiff s).visits.find? (fun v => v.id == vid)) =
      s.visits.find? (fun v => v.id == vid) := by
  induction m generalizing s with
  | nil => rfl
  | cons q m ih =>
    rw [List.foldl_cons]
    rw [ih (applyDiff s q) (fun q2 hq2 => h q2 (List.mem_cons_of_mem q hq2))]
    unfold applyDiff
    by_cases hskip : (q.1.assigned_doctor_id == some q.2.id) = true
    · rw [if_pos hskip]
    · rw [if_neg hskip]
      have hqid : q.1.id ≠ vid := fun hq => hskip (h q (List.mem_cons_self q m) hq)
      exact find_vmapUpdate_other s.visits q.1.id vid
        (fun v => { v with assigned_doctor_id := some q.2.id })
        (fun v => rfl) (fun hc => hqid hc.symm)

/-- C4: the batch rebalancer (modelled from the spec, §4.4) either yields
`InfeasibleBatch` with the state left exactly as it was, or returns a
feasible matching of the waiting non-emergency visits to clinician slots
that minimises the total summed cost over all feasible matchings, and
applies only diffs: every visit whose optimal clinician equals its current
clinician is left untouched. -/
theorem C4_batch_minimises (s : ClinicState) (cap : Nat)
    (hnd : (s.visits.map Visit.id).Nodup) :
    match rebalance s cap with
    | .infeasibleBatch s2 => s2 = s
    | .rebalanced m s2 =>
      m ∈ allMatchings (waitingVisits s.visits)
        (clinicianSlots (activeDoctors s.doctors) cap) ∧
      (∀ m2 ∈ allMatchings (waitingVisits s.visits)
          (clinicianSlots (activeDoctors s.doctors) cap),
        matchingCost (avgLoad (activeDoctors s.doctors)) m ≤
          matchingCost (avgLoad (activeDoctors s.doctors)) m2) ∧
      (∀ p ∈ m, p.1.assigned_doctor_id = some p.2.id →
        s2.visits.find? (fun v => v.id == p.1.id) =
          s.visits.find? (fun v => v.id == p.1.id)) := by
  unfold rebalance
  rcases harg : argminMatching (avgLoad (activeDoctors s.doctors))
      (allMatchings (waitingVisits s.visits)
        (clinicianSlots (activeDoctors s.doctors) cap)) with _ | m
  · exact rfl
  · obtain ⟨hmem, hmin⟩ := argminMatching_spec _ _ _ harg
    refine ⟨hmem, hmin, ?_⟩
    intro p hp hpq
    have hfst := allMatchings_fst hmem
    have hndm : (m.map (fun q => (q : Visit × Doctor).1.id)).Nodup := by
      have hmm : m.map (fun q => (q : Visit × Doctor).1.id) =
          (m.map Prod.fst).map Visit.id := by
        rw [List.map_map]
        rfl
      rw [hmm, hfst]
      have hsub : List.Sublist (waitingVisits s.visits) s.visits :=
        List.filter_sublist s.visits
      exact List.Nodup.sublist (hsub.map Visit.id) hnd
    apply foldl_applyDiff_find m s p.1.id
    intro q hq hqid
    have hqp : q = p := List.inj_on_of_nodup_map hndm hq hp hqid
    rw [hqp]
    exact beq_iff_eq.2 hpq

/-- Witness for C4: one waiting visit pointing at a stale doctor id, one
active clinician; the rebalancer finds the unique matching and repoints
the visit. -/
theorem C4_batch_minimises_witness :
    match rebalance ⟨[⟨"d_1", "Dr. A", "Cardiology", 1, "active"⟩],
        [⟨1, "waiting", "Normal", some "Cardiology", some "d_9"⟩]⟩ 1 with
    | .infeasibleBatch s2 => s2 =
        ⟨[⟨"d_1", "Dr. A", "Cardiology", 1, "active"⟩],
         [⟨1, "waiting", "Normal", some "Cardiology", some "d_9"⟩]⟩
    | .rebalanced m s2 =>
      m ∈ allMatchings
        (waitingVisits [⟨1, "waiting", "Normal", some "Cardiology", some "d_9"⟩])
        (clinicianSlots
          (activeDoctors [⟨"d_1", "Dr. A", "Cardiology", 1, "active"⟩]) 1) ∧
      (∀ m2 ∈ allMatchings
          (waitingVisits [⟨1, "waiting", "Normal", some "Cardiology", some "d_9"⟩])
          (clinicianSlots
            (activeDoctors [⟨"d_1", "Dr. A", "Cardiology", 1, "active"⟩]) 1),
        matchingCost (avgLoad (activeDoctors [⟨"d_1", "Dr. A", "Cardiology", 1, "active"⟩])) m ≤
          matchingCost (avgLoad (activeDoctors [⟨"d_1", "Dr. A", "Cardiology", 1, "active"⟩])) m2) ∧
      (∀ p ∈ m, p.1.assigned_doctor_id = some p.2.id →
        s2.visits.find? (fun v => v.id == p.1.id) =
          (⟨[⟨"d_1", "Dr. A", "Cardiology", 1, "active"⟩],
            [⟨1, "waiting", "Normal", some "Cardiology", some "d_9"⟩]⟩ :
              ClinicState).visits.find? (fun v => v.id == p.1.id)) :=
  C4_batch_minimises
    ⟨[⟨"d_1", "Dr. A", "Cardiology", 1, "active"⟩],
     [⟨1, "waiting", "Normal", some "Cardiology", some "d_9"⟩]⟩ 1 (by decide)
